import Mathlib

/-!
# File selector of the application layer (`lv_app/lv_app_util/lv_app_fsel.c`)

A shallow embedding of the file selector: its static variables become the
record `Fsel`, every function of the C file becomes a function on that record,
and the calls into the collaborators (file system interface, object tree,
notices, the user's `ok_action`) are recorded in a chronological call log.

Conventions of the embedding.
* A C string is the list of its characters before the terminating NUL, so
  `s[0] == 0` reads `s = []` and `strcmp(a, b) == 0` reads `a = b`.
* `uint16_t` values are natural numbers reduced modulo `2 ^ 16` at every
  arithmetic step that can leave the range.
* A result is `Except Fault _`: `Fault` names the ways an execution leaves the
  defined behaviour of C (a write past `fsel_path`, a read outside it, a
  `sprintf` whose destination is one of its arguments) or leaves what the
  model follows (its fuel, the bytes of `fsel_path` behind the string).
* The C library is a collaborator like the file system: what its `sprintf`
  leaves in `fsel_path` when `fsel_path` is also the string to format, which
  the C standard does not define, is a parameter (`Libc`).
* The local buffers `fn` and `drv` are filled by the file system interface;
  the names and letters it stores are taken to fit them.  What this file
  writes itself, into `fsel_path`, is checked against the capacity.
* The style, size and scroll calls of the object library do not influence the
  traversal state and are not recorded.
-/

namespace LvAppFsel

/-! ## Collaborators and constants -/

/-- Compile time constants used by the file (declared in the configuration
header, which is not part of the sources at hand): taken as parameters. -/
structure Config where
  /-- Number of files and folders listed on one page. -/
  LV_APP_FSEL_PAGE_SIZE : Nat
  /-- Capacity in bytes of the array `fsel_path`. -/
  LV_APP_FSEL_PATH_MAX_LEN : Nat
deriving Repr

/-- One answer of `fs_readdir`: `none` is a result other than `FS_RES_OK`,
`some fn` is `FS_RES_OK` with the name `fn` stored (the empty name marks the
end of the directory, a leading slash marks a folder). -/
abbrev ReadRes := Option (List Char)

/-- The open directory `fs_readdir_t`: the answers still to come.  Once they
are used up every further read answers `FS_RES_OK` with the empty name. -/
abbrev fs_readdir_t := List ReadRes

/-- The file system interface called by the file selector (the `fs_*`
functions live in another library): taken as parameters. -/
structure Fs where
  /-- Letters stored by `fs_get_letters`. -/
  fs_get_letters : List Char
  /-- Result of `fs_readdir_init` on a path: `none` when it is not
  `FS_RES_OK`, else the opened directory. -/
  fs_readdir_init : List Char → Option fs_readdir_t
  /-- The path left in the buffer by `fs_up`. -/
  fs_up : List Char → List Char
  /-- The extension returned by `fs_get_ext`. -/
  fs_get_ext : List Char → List Char

/-- The C library, where the file calls it outside of what the C standard
defines.  The folder and file actions (lines 337, 351 and 370) run
`sprintf(fsel_path, "%s/%s", fsel_path, txt)`: the destination is also the
first string to format, and a copy between overlapping objects is undefined.
What the call leaves depends on the library: taken as a parameter. -/
structure Libc where
  /-- The string left in the destination by `sprintf(dst, "%s/%s", dst, txt)`,
  given the string held by `dst` before the call and `txt`; `none` stands for
  every outcome other than a string left in the destination. -/
  sprintf_self : List Char → List Char → Option (List Char)

/-- Constants, file system and C library together. -/
structure Env where
  cfg : Config
  fs : Fs
  libc : Libc

/-- Function `fs_readdir`: the next answer and the directory after the read. -/
def fs_readdir : fs_readdir_t → ReadRes × fs_readdir_t
  | [] => (some [], [])
  | r :: rd => (r, rd)

/-! ## Data model -/

/-- The six kinds of list element created by `fsel_refr`; each stands for the
pair (symbol, release action) passed to `lv_list_add`:
`Drive` = (`SYMBOL_DRIVE`, `fsel_drv_action`), `Up` = (`SYMBOL_UP`,
`fsel_up_action`), `PreviousPage` = (`SYMBOL_LEFT`, `fsel_prev_action`),
`NextPage` = (`SYMBOL_RIGHT`, `fsel_next_action`), `Folder` =
(`SYMBOL_FOLDER`, `fsel_folder_action`), `File` = (`SYMBOL_FILE`,
`fsel_file_action`). -/
inductive Kind
  | Drive | Up | PreviousPage | NextPage | Folder | File
deriving DecidableEq, Repr

/-- A list element: its kind, its text, and whether `lv_btn_set_lpr_action`
attached the long press action (`fsel_drv_lpr_action` on a drive,
`fsel_folder_lpr_action` on a folder). -/
structure Entry where
  kind : Kind
  label : List Char
  lpr : Bool
deriving DecidableEq, Repr

/-- The two texts given to `lv_app_notice_add`. -/
inductive Notice
  | cannot_read
  | press_folder_long
deriving DecidableEq, Repr

/-- Calls into the collaborators, as they appear in the call log. -/
inductive Event
  | lv_win_create
  | lv_obj_del_win
  | lv_obj_del_list
  | lv_win_set_title (title : List Char)
  | lv_list_create
  | fs_get_letters
  | fs_readdir_init (path : List Char) (ok : Bool)
  | fs_readdir (res : ReadRes)
  | fs_readdir_close
  | fs_up (path : List Char)
  | lv_app_notice_add (msg : Notice)
  | ok_action (fn : Nat) (param : Nat) (path : List Char)
deriving DecidableEq, Repr

/-- Ways of leaving the defined behaviour. -/
inductive Fault
  /-- The model ran out of fuel (the C loop may not terminate). -/
  | out_of_fuel
  /-- A string of the given length plus its NUL is written into `fsel_path`
  and does not fit. -/
  | path_overflow (len : Nat)
  /-- Read of `fsel_path[i]` outside the array. -/
  | out_of_bounds (i : Nat)
  /-- Read of `fsel_path[i]` inside the array, beyond the terminating NUL of
  the string just stored and before the last byte of the array: the byte is
  what an earlier call left there, which the record `Fsel` does not keep. -/
  | stale (i : Nat)
  /-- A `sprintf` with `fsel_path` as destination and as argument, on a
  library of which no result is known. -/
  | sprintf_overlap
deriving DecidableEq, Repr

/-- The static variables of the file, plus the call log.  `fsel_win` is
`true` when the pointer is not `NULL`; `fsel_list` is `none` for `NULL` and
otherwise holds the elements added to the list so far; `fsel_ok_action` is
`none` for `NULL` and otherwise identifies the function. -/
structure Fsel where
  fsel_filter : List Char
  fsel_path : List Char
  fsel_file_cnt : Nat
  fsel_win : Bool
  fsel_list : Option (List Entry)
  fsel_param : Nat
  fsel_ok_action : Option Nat
  /-- The function local static of `lv_app_fsel_open`. -/
  first_folder_call : Bool
  /-- Calls made so far, oldest first. -/
  log : List Event
deriving DecidableEq, Repr

/-- Append one call to the log. -/
def Fsel.call (s : Fsel) (e : Event) : Fsel :=
  { s with log := s.log ++ [e] }

/-- Function `lv_list_add` on `fsel_list` (followed by
`lv_btn_set_lpr_action` when `lpr` is set). -/
def Fsel.lv_list_add (s : Fsel) (k : Kind) (txt : List Char) (lpr : Bool) : Fsel :=
  { s with fsel_list := s.fsel_list.map (fun l => l ++ [⟨k, txt, lpr⟩]) }

/-- Truncation to `uint16_t`. -/
def u16 (n : Nat) : Nat := n % 65536

/-- The test `fsel_filter[0] == '/'`. -/
def folder_filter (filter : List Char) : Bool :=
  filter.head? == some '/'

/-- The test guarding the file branch of `fsel_refr`:
`fsel_filter[0] == 0 || (strcmp(fs_get_ext(fn), fsel_filter) == 0 && fsel_filter[0] != '/')`. -/
def file_passes (fs : Fs) (filter fn : List Char) : Bool :=
  filter.isEmpty || (fs.fs_get_ext fn == filter && !folder_filter filter)

/-! ## `fsel_refr` -/

/-- The loop over `drv` in the drive branch of `fsel_refr`: one `Drive`
element per letter, with the long press action under a folder filter. -/
def drv_loop (filter : List Char) : List Char → Fsel → Fsel
  | [], s => s
  | c :: drv, s => drv_loop filter drv (s.lv_list_add .Drive [c] (folder_filter filter))

/-- Outcome of the loop that reads the files of the previous pages. -/
inductive Skip
  /-- A read failed: `fsel_refr` returns from inside the loop. -/
  | failed (s : Fsel)
  /-- The loop ended; `rd` is the directory after the reads and `fn` the
  name stored by the last read. -/
  | done (s : Fsel) (rd : fs_readdir_t) (fn : List Char)

/-- The loop `while(file_cnt <= fsel_file_cnt)` of `fsel_refr`.  The local
`file_cnt` is a `uint16_t`, so for `fsel_file_cnt = 65535` the test never
fails: the loop is run on fuel. -/
def skip_loop : Nat → Fsel → fs_readdir_t → Nat → List Char → Except Fault Skip
  | 0, _, _, _, _ => .error .out_of_fuel
  | fuel + 1, s, rd, file_cnt, fn =>
    if file_cnt ≤ s.fsel_file_cnt then
      match fs_readdir rd with
      | (none, _) =>
        .ok (.failed ((s.call (.fs_readdir none)).call (.lv_app_notice_add .cannot_read)))
      | (some fn1, rd1) =>
        skip_loop fuel (s.call (.fs_readdir (some fn1))) rd1 (u16 (file_cnt + 1)) fn1
    else .ok (.done s rd fn)

/-- The body of the second loop of `fsel_refr` up to the next read: adds the
element for the name `fn` (first character `c`) when it is a folder or a
file that is not filtered, and counts it in `fsel_file_cnt`.  (The local
`file_cnt` is counted up there as well and never read again.) -/
def add_elem (env : Env) (c : Char) (cs : List Char) (s : Fsel) : Fsel :=
  if c = '/' then
    { s.lv_list_add .Folder cs (folder_filter s.fsel_filter) with
      fsel_file_cnt := u16 (s.fsel_file_cnt + 1) }
  else if file_passes env.fs s.fsel_filter (c :: cs) then
    { s.lv_list_add .File (c :: cs) false with
      fsel_file_cnt := u16 (s.fsel_file_cnt + 1) }
  else s

/-- The test `fsel_file_cnt != 0 && fsel_file_cnt % LV_APP_FSEL_PAGE_SIZE == 0`. -/
def page_full (env : Env) (s : Fsel) : Bool :=
  s.fsel_file_cnt != 0 && s.fsel_file_cnt % env.cfg.LV_APP_FSEL_PAGE_SIZE == 0

/-- The loop `while(res == FS_RES_OK && fn[0] != 0)` of `fsel_refr`.  `cur`
is the pair (`res`, `fn`) left by the last read and `rd` the directory.  The
result is the state and the value of `res` at the exit of the loop.  The
recursion follows `rd`: when `rd` is used up the read in the body stores the
empty name, so the loop ends either at the `break` or at its next test. -/
def emit_loop (env : Env) : ReadRes → fs_readdir_t → Fsel → Fsel × Bool
  | none, _, s => (s, false)
  | some [], _, s => (s, true)
  | some (c :: cs), [], s =>
    let s1 := (add_elem env c cs s).call (.fs_readdir (some []))
    if page_full env s1 then (s1.lv_list_add .NextPage "Next page".toList false, true)
    else (s1, true)
  | some (c :: cs), r :: rd, s =>
    let s1 := (add_elem env c cs s).call (.fs_readdir r)
    if page_full env s1 then (s1.lv_list_add .NextPage "Next page".toList false, r.isSome)
    else emit_loop env r rd s1

/-- The part of `fsel_refr` that follows a successful `fs_readdir_init`, on
the opened directory `rd`. -/
def fsel_refr_dir (env : Env) (fuel : Nat) (s5 : Fsel) (rd : fs_readdir_t) :
    Except Fault Fsel :=
  /- At not first page add prev. page button -/
  let s6 : Fsel := if s5.fsel_file_cnt ≠ 0 then
      s5.lv_list_add .PreviousPage "Previous page".toList false else s5
  /- Read the files from the previous pages -/
  match skip_loop fuel s6 rd 0 [] with
  | .error f => .error f
  | .ok (.failed s7) => .ok s7
  | .ok (.done s7 rd1 fn) =>
    /- Add list elements from the files and folders -/
    let r := emit_loop env (some fn) rd1 s7
    /- Close the read directory -/
    let s9 : Fsel := r.1.call .fs_readdir_close
    .ok (if r.2 then s9 else s9.call (.lv_app_notice_add .cannot_read))

/-- The state of `fsel_refr` once the new list is created: the previous list
deleted, the title set, the new list empty. -/
def fsel_refr_new_list (s0 : Fsel) : Fsel :=
  /- Delete the previous list -/
  let s1 : Fsel := if s0.fsel_list.isSome then s0.call .lv_obj_del_list else s0
  let s2 : Fsel := s1.call (.lv_win_set_title s1.fsel_path)
  /- Create a new list -/
  { s2.call .lv_list_create with fsel_list := some [] }

/-- Function `fsel_refr`: refresh the file list according to the current path
and filter. -/
def fsel_refr (env : Env) (fuel : Nat) (s0 : Fsel) : Except Fault Fsel :=
  let s3 : Fsel := fsel_refr_new_list s0
  if s3.fsel_path = [] then
    /- At empty path show the drivers -/
    .ok (drv_loop s3.fsel_filter env.fs.fs_get_letters (s3.call .fs_get_letters))
  else
    /- List the files/folders with fs interface -/
    let s4 : Fsel := s3.lv_list_add .Up "Up".toList false
    match env.fs.fs_readdir_init s4.fsel_path with
    | none =>
      .ok ((s4.call (.fs_readdir_init s4.fsel_path false)).call (.lv_app_notice_add .cannot_read))
    | some rd => fsel_refr_dir env fuel (s4.call (.fs_readdir_init s4.fsel_path true)) rd

/-! ## The global functions -/

/-- The trimming loop of `lv_app_fsel_open`,
`for(i = strlen(fsel_path) - 1; fsel_path[i] == '/' || fsel_path[i] == '\\'; i--) fsel_path[i] = 0`,
on the string `path` held in `fsel_path` and the `uint16_t` index `i`.
Below the length the character of the string is read; at the length the
terminating NUL is read and the loop ends; above it the read leaves the
string: it is outside the array when `i` reaches its capacity; at the last
byte of the array it finds NUL and the loop ends (the array is static, so
zero at program start, and a string that fits stores nothing but its NUL
there); at any other byte it finds what an earlier call left.  Storing NUL
at `i` cuts the string to its first `i` characters. -/
def trim_loop (cfg : Config) : Nat → List Char → Nat → Except Fault (List Char)
  | 0, _, _ => .error .out_of_fuel
  | fuel + 1, path, i =>
    if h : i < path.length then
      if path[i] = '/' ∨ path[i] = '\\' then
        trim_loop cfg fuel (path.take i) (u16 (i + 65535))
      else .ok path
    else if i = path.length then .ok path
    else if cfg.LV_APP_FSEL_PATH_MAX_LEN ≤ i then .error (.out_of_bounds i)
    else if i + 1 = cfg.LV_APP_FSEL_PATH_MAX_LEN then .ok path
    else .error (.stale i)

/-- Function `lv_app_fsel_open`.  `filter` and `ok_action` are `none` for
`NULL`.  The `strcpy` into `fsel_path` needs room for the string and its
NUL. -/
def lv_app_fsel_open (env : Env) (fuel : Nat) (path : List Char) (filter : Option (List Char))
    (param : Nat) (ok_action : Option Nat) (s : Fsel) : Except Fault Fsel :=
  /- Save the parameters -/
  if env.cfg.LV_APP_FSEL_PATH_MAX_LEN ≤ path.length then .error (.path_overflow path.length)
  else
    /- Trim the extra separators from the end of path -/
    match trim_loop env.cfg fuel path (u16 (path.length + 65535)) with
    | .error f => .error f
    | .ok p =>
      let s1 : Fsel := { s with
        fsel_path := p
        /- Check filter: NULL and the empty string mean no filtering -/
        fsel_filter := filter.getD []
        fsel_file_cnt := 0
        fsel_param := param
        fsel_ok_action := ok_action }
      /- Create a window for the File selector -/
      let s2 : Fsel := { s1.call .lv_win_create with fsel_win := true }
      /- Refresh the list -/
      match fsel_refr env fuel s2 with
      | .error f => .error f
      | .ok s3 =>
        /- Show instruction when first open with folder filter -/
        if s3.first_folder_call = false ∧ folder_filter s3.fsel_filter = true then
          .ok { s3.call (.lv_app_notice_add .press_folder_long) with first_folder_call := true }
        else .ok s3

/-- Function `lv_app_fsel_close`. -/
def lv_app_fsel_close (s : Fsel) : Fsel :=
  let s1 : Fsel := if s.fsel_win then s.call .lv_obj_del_win else s
  { s1 with fsel_win := false, fsel_list := none }

/-! ## The actions of the list elements -/

/-- A `sprintf` that leaves the string `str` in `fsel_path`: it needs room
for the string and its NUL. -/
def sprintf_fsel_path (cfg : Config) (str : List Char) (s : Fsel) : Except Fault Fsel :=
  if cfg.LV_APP_FSEL_PATH_MAX_LEN ≤ str.length then .error (.path_overflow str.length)
  else .ok { s with fsel_path := str }

/-- The call `sprintf(fsel_path, "%s/%s", fsel_path, txt)` of the folder and
file actions.  Destination and first argument are the same array, so C
defines no result; the string left is the one the library leaves, when it
leaves one, and it needs room like every other. -/
def sprintf_fsel_path_self (env : Env) (txt : List Char) (s : Fsel) : Except Fault Fsel :=
  match env.libc.sprintf_self s.fsel_path txt with
  | none => .error .sprintf_overlap
  | some str => sprintf_fsel_path env.cfg str s

/-- The call `if(fsel_ok_action != NULL) fsel_ok_action(fsel_param, fsel_path)`. -/
def call_ok_action (s : Fsel) : Fsel :=
  match s.fsel_ok_action with
  | none => s
  | some fn => s.call (.ok_action fn s.fsel_param s.fsel_path)

/-- Function `fsel_close_action`. -/
def fsel_close_action (s : Fsel) : Fsel :=
  lv_app_fsel_close s

/-- Function `fsel_up_action`. -/
def fsel_up_action (env : Env) (fuel : Nat) (s : Fsel) : Except Fault Fsel :=
  fsel_refr env fuel
    { s.call (.fs_up s.fsel_path) with fsel_path := env.fs.fs_up s.fsel_path, fsel_file_cnt := 0 }

/-- Function `fsel_next_action`. -/
def fsel_next_action (env : Env) (fuel : Nat) (s : Fsel) : Except Fault Fsel :=
  fsel_refr env fuel s

/-- The value given to `fsel_file_cnt` by `fsel_prev_action`.  (The C
expressions divide by the page size; the statements below take it to be at
least 1.) -/
def prev_cnt (cfg : Config) (cnt : Nat) : Nat :=
  if cnt ≤ 2 * cfg.LV_APP_FSEL_PAGE_SIZE then 0
  else if cnt % cfg.LV_APP_FSEL_PAGE_SIZE = 0 then u16 (cnt - 2 * cfg.LV_APP_FSEL_PAGE_SIZE)
  else u16 ((cnt / cfg.LV_APP_FSEL_PAGE_SIZE - 1) * cfg.LV_APP_FSEL_PAGE_SIZE)

/-- Function `fsel_prev_action`. -/
def fsel_prev_action (env : Env) (fuel : Nat) (s : Fsel) : Except Fault Fsel :=
  fsel_refr env fuel { s with fsel_file_cnt := prev_cnt env.cfg s.fsel_file_cnt }

/-- Function `fsel_drv_action`; `txt` is the text of the pressed element. -/
def fsel_drv_action (env : Env) (fuel : Nat) (txt : List Char) (s : Fsel) : Except Fault Fsel :=
  match sprintf_fsel_path env.cfg (txt ++ [':']) s with
  | .error f => .error f
  | .ok s1 => fsel_refr env fuel { s1 with fsel_file_cnt := 0 }

/-- Function `fsel_drv_lpr_action`. -/
def fsel_drv_lpr_action (env : Env) (txt : List Char) (s : Fsel) : Except Fault Fsel :=
  match sprintf_fsel_path env.cfg (txt ++ [':']) s with
  | .error f => .error f
  | .ok s1 => .ok (lv_app_fsel_close (call_ok_action s1))

/-- Function `fsel_folder_action`. -/
def fsel_folder_action (env : Env) (fuel : Nat) (txt : List Char) (s : Fsel) :
    Except Fault Fsel :=
  match sprintf_fsel_path_self env txt s with
  | .error f => .error f
  | .ok s1 => fsel_refr env fuel { s1 with fsel_file_cnt := 0 }

/-- Function `fsel_folder_lpr_action`. -/
def fsel_folder_lpr_action (env : Env) (txt : List Char) (s : Fsel) : Except Fault Fsel :=
  match sprintf_fsel_path_self env txt s with
  | .error f => .error f
  | .ok s1 => .ok (lv_app_fsel_close (call_ok_action s1))

/-- Function `fsel_file_action`. -/
def fsel_file_action (env : Env) (txt : List Char) (s : Fsel) : Except Fault Fsel :=
  match sprintf_fsel_path_self env txt s with
  | .error f => .error f
  | .ok s1 => .ok (lv_app_fsel_close (call_ok_action s1))

/-! ## Sessions -/

/-- The static variables at program start (all zero), with an empty log. -/
def Fsel.init : Fsel :=
  { fsel_filter := [], fsel_path := [], fsel_file_cnt := 0, fsel_win := false,
    fsel_list := none, fsel_param := 0, fsel_ok_action := none,
    first_folder_call := false, log := [] }

/-- A user input on the file selector: the close button of the window, a
release on a list element, or a long press on a drive or folder element.
`txt` is the text of the element. -/
inductive Action
  | close
  | up
  | next
  | prev
  | drv (txt : List Char)
  | drv_lpr (txt : List Char)
  | folder (txt : List Char)
  | folder_lpr (txt : List Char)
  | file (txt : List Char)
deriving DecidableEq, Repr

/-- The displayed list has an element of kind `k` and text `txt` (with the
long press action when `lpr` is asked for). -/
def shows (s : Fsel) (k : Kind) (txt : List Char) (lpr : Bool) : Bool :=
  (s.fsel_list.getD []).any (fun e => e.kind == k && e.label == txt && (!lpr || e.lpr))

/-- The displayed list has an element of kind `k`. -/
def shows_kind (s : Fsel) (k : Kind) : Bool :=
  (s.fsel_list.getD []).any (fun e => e.kind == k)

/-- The input is offered by what is displayed: the object carrying the
action exists. -/
def offered (s : Fsel) : Action → Bool
  | .close => s.fsel_win
  | .up => shows_kind s .Up
  | .next => shows_kind s .NextPage
  | .prev => shows_kind s .PreviousPage
  | .drv txt => shows s .Drive txt false
  | .drv_lpr txt => shows s .Drive txt true
  | .folder txt => shows s .Folder txt false
  | .folder_lpr txt => shows s .Folder txt true
  | .file txt => shows s .File txt false

/-- The function run for an input. -/
def step (env : Env) (fuel : Nat) (s : Fsel) : Action → Except Fault Fsel
  | .close => .ok (fsel_close_action s)
  | .up => fsel_up_action env fuel s
  | .next => fsel_next_action env fuel s
  | .prev => fsel_prev_action env fuel s
  | .drv txt => fsel_drv_action env fuel txt s
  | .drv_lpr txt => fsel_drv_lpr_action env txt s
  | .folder txt => fsel_folder_action env fuel txt s
  | .folder_lpr txt => fsel_folder_lpr_action env txt s
  | .file txt => fsel_file_action env txt s

/-- Run a sequence of inputs, stopping at the first fault. -/
def run (env : Env) (fuel : Nat) : List Action → Fsel → Except Fault Fsel
  | [], s => .ok s
  | a :: as, s =>
    match step env fuel s a with
    | .error f => .error f
    | .ok s1 => run env fuel as s1

/-- A session from program start: `lv_app_fsel_open`, then the inputs. -/
def session (env : Env) (fuel : Nat) (path : List Char) (filter : Option (List Char))
    (param : Nat) (ok_action : Option Nat) (acts : List Action) : Except Fault Fsel :=
  match lv_app_fsel_open env fuel path filter param ok_action Fsel.init with
  | .error f => .error f
  | .ok s => run env fuel acts s

/-- The files and folders on the displayed list, in order. -/
def shown (s : Fsel) : List Entry :=
  (s.fsel_list.getD []).filter (fun e => e.kind == .Folder || e.kind == .File)

/-! ## Vocabulary of the statements -/

/-- Append several calls to the log. -/
def Fsel.calls (s : Fsel) (evs : List Event) : Fsel :=
  { s with log := s.log ++ evs }

/-- The name stored by a read at the head of what is left of a listing
(empty at its end). -/
def cur_name (all : List (List Char)) : List Char := all.headD []

/-- A name returned by the enumeration denotes a folder: it begins with a
slash. -/
def is_folder (n : List Char) : Bool := n.head? == some '/'

/-- Matching entry, in the words of the specification: a folder, or a file
when the filter is empty, or when the filter is not a folder filter and the
extension of the name equals it. -/
def matching (fs : Fs) (filter n : List Char) : Bool :=
  is_folder n || (filter == [] || (!folder_filter filter && fs.fs_get_ext n == filter))

/-- The list element that displays a matching name: a folder without its
marker (pickable by long press under a folder filter), a file as it is. -/
def entry_of (filter n : List Char) : Entry :=
  if is_folder n then ⟨.Folder, n.tail, folder_filter filter⟩ else ⟨.File, n, false⟩

/-- The element that leads to the next page. -/
def next_elem : Entry := ⟨.NextPage, "Next page".toList, false⟩

/-- The elements heading the list of a directory page refreshed at the
count `cnt`. -/
def page_head (cnt : Nat) : List Entry :=
  ⟨.Up, "Up".toList, false⟩ ::
    (if cnt ≠ 0 then [⟨.PreviousPage, "Previous page".toList, false⟩] else [])

/-- The session data that paging leaves alone: path, filter, window,
callback and its parameter, and the flag of the first folder call. -/
def same_session (s t : Fsel) : Prop :=
  t.fsel_path = s.fsel_path ∧ t.fsel_filter = s.fsel_filter ∧ t.fsel_win = s.fsel_win ∧
    t.fsel_param = s.fsel_param ∧ t.fsel_ok_action = s.fsel_ok_action ∧
    t.first_folder_call = s.first_folder_call

/-- The state left by the first loop of the refresh. -/
def Skip.state : Skip → Fsel
  | .failed s => s
  | .done s _ _ => s

/-- The state displays page `j` of the listing `names` of `path` under the
empty filter. -/
def is_page (env : Env) (names : List (List Char)) (path : List Char) (j : Nat) (t : Fsel) :
    Prop :=
  t.fsel_path = path ∧ t.fsel_filter = [] ∧
  t.fsel_file_cnt = min ((j + 1) * env.cfg.LV_APP_FSEL_PAGE_SIZE) names.length ∧
  t.fsel_list = some (page_head (j * env.cfg.LV_APP_FSEL_PAGE_SIZE) ++
    ((names.drop (j * env.cfg.LV_APP_FSEL_PAGE_SIZE)).take env.cfg.LV_APP_FSEL_PAGE_SIZE).map
      (entry_of []) ++
    if (j + 1) * env.cfg.LV_APP_FSEL_PAGE_SIZE ≤ names.length then [next_elem] else [])

/-- The two separator characters. -/
def is_sep (c : Char) : Bool := c == '/' || c == '\\'

/-- A path without its maximal trailing run of separators. -/
def rtrim (p : List Char) : List Char := (p.reverse.dropWhile is_sep).reverse

/-- The path ends in a separator. -/
def ends_in_sep (p : List Char) : Bool :=
  match p.getLast? with
  | some c => is_sep c
  | none => false

/-- The calls made by a pick in the state `s` once `fsel_path` holds `p`: the
`ok_action` when there is one, then the deletion of the window when there is
one. -/
def pick_calls (s : Fsel) (p : List Char) : List Event :=
  (match s.fsel_ok_action with
    | some fn => [Event.ok_action fn s.fsel_param p]
    | none => []) ++
  (if s.fsel_win then [Event.lv_obj_del_win] else [])

/-- States reached from `lv_app_fsel_open` by inputs that the displayed objects
offer. -/
inductive Reachable (env : Env) (fuel : Nat) : Fsel → Prop
  | opened (path : List Char) (filter : Option (List Char)) (param : Nat)
      (ok_action : Option Nat) (s0 s : Fsel) :
      lv_app_fsel_open env fuel path filter param ok_action s0 = .ok s → Reachable env fuel s
  | input (s : Fsel) (a : Action) (s1 : Fsel) :
      Reachable env fuel s → offered s a = true → step env fuel s a = .ok s1 →
      Reachable env fuel s1

/-- Every file and folder element of the displayed list has a text that,
appended to a path after a slash, does not end in a separator. -/
def labels_ok (s : Fsel) : Prop :=
  ∀ e ∈ s.fsel_list.getD [], (e.kind = .Folder ∨ e.kind = .File) →
    ends_in_sep ('/' :: e.label) = false

/-- The notices among a sequence of calls. -/
def notices (evs : List Event) : List Notice :=
  evs.filterMap (fun e => match e with
    | .lv_app_notice_add m => some m
    | _ => none)

/-- The indices of `fsel_path` that the trimming loop of `lv_app_fsel_open`
reads, in order (each index at which it finds a separator is also the index
it writes); same loop as `trim_loop`. -/
def trim_reads : Nat → List Char → Nat → List Nat
  | 0, _, _ => []
  | fuel + 1, path, i =>
    if h : i < path.length then
      if path[i] = '/' ∨ path[i] = '\\' then
        i :: trim_reads fuel (path.take i) (u16 (i + 65535))
      else [i]
    else [i]

/-- The state on which an input runs `fsel_refr`: the state after the
assignments that precede the call in the action (none for the inputs that do
not refresh, and when the `sprintf` leaves no string that fits). -/
def refr_start (env : Env) (s : Fsel) : Action → Option Fsel
  | .up => some { s.call (.fs_up s.fsel_path) with
      fsel_path := env.fs.fs_up s.fsel_path, fsel_file_cnt := 0 }
  | .next => some s
  | .prev => some { s with fsel_file_cnt := prev_cnt env.cfg s.fsel_file_cnt }
  | .drv txt =>
    match sprintf_fsel_path env.cfg (txt ++ [':']) s with
    | .error _ => none
    | .ok s1 => some { s1 with fsel_file_cnt := 0 }
  | .folder txt =>
    match sprintf_fsel_path_self env txt s with
    | .error _ => none
    | .ok s1 => some { s1 with fsel_file_cnt := 0 }
  | .close => none
  | .drv_lpr _ => none
  | .folder_lpr _ => none
  | .file _ => none

/-- From the state `s` to the state `r`, `k` files and folders were added to
the list and counted: the count of `r` is that of `s` plus `k` modulo
`2 ^ 16`, and `k` does not exceed the distance from the count of `s` to the
next multiple of the page size when that multiple is below `2 ^ 16`. -/
def counts_from (env : Env) (s r : Fsel) : Prop :=
  ∃ k, (shown r).length = (shown s).length + k ∧
    r.fsel_file_cnt = (s.fsel_file_cnt + k) % 65536 ∧
    (1 ≤ env.cfg.LV_APP_FSEL_PAGE_SIZE →
      s.fsel_file_cnt + (env.cfg.LV_APP_FSEL_PAGE_SIZE
        - s.fsel_file_cnt % env.cfg.LV_APP_FSEL_PAGE_SIZE) < 65536 →
      k ≤ env.cfg.LV_APP_FSEL_PAGE_SIZE
        - s.fsel_file_cnt % env.cfg.LV_APP_FSEL_PAGE_SIZE)

/-- Twenty-five file names `f`, `fx`, `fxx`, ... -/
def demo_names : List (List Char) := (List.range 25).map (fun i => 'f' :: List.replicate i 'x')

/-- A file system with the drive `S` on which `fs_readdir_init` answers `dir`
for the path `/sd` and fails elsewhere; `fs_up` cuts the last component and
the separators before it, `fs_get_ext` gives the text after the last dot. -/
def demo_fs (dir : Option fs_readdir_t) : Fs :=
  { fs_get_letters := ['S']
    fs_readdir_init := fun p => if p = "/sd".toList then dir else none
    fs_up := fun p => ((p.reverse.dropWhile (fun c => !is_sep c)).dropWhile is_sep).reverse
    fs_get_ext := fun fn =>
      if fn.contains '.' then (fn.reverse.takeWhile (fun c => c != '.')).reverse else [] }

/-- A library that formats in place from left to right: the first `%s`
copies the path onto itself, so the call leaves `path/txt`. -/
def libc_in_place : Libc := ⟨fun path txt => some (path ++ '/' :: txt)⟩

/-- A library that empties the destination before it formats (a fortified
build of the GNU library does): the first `%s` finds the empty string and
the call leaves `/txt`. -/
def libc_cleared : Libc := ⟨fun _ txt => some ('/' :: txt)⟩

/-- A library of which no result is known. -/
def libc_unknown : Libc := ⟨fun _ _ => none⟩

/-- Page size and a path buffer of 128 bytes over `demo_fs` with a directory
`/sd` that lists `names` without read errors, on a library that empties the
destination first. -/
def listing_env (page_size : Nat) (names : List (List Char)) : Env :=
  { cfg := ⟨page_size, 128⟩, fs := demo_fs (some (names.map some)), libc := libc_cleared }

/-- The same on a library that formats in place. -/
def in_place_env (page_size : Nat) (names : List (List Char)) : Env :=
  { listing_env page_size names with libc := libc_in_place }

/-- Page size 10, directory `/sd` with 25 files. -/
def demo_env : Env := listing_env 10 demo_names

/-- A directory with a file, folders and sound files. -/
def mixed_names : List (List Char) :=
  ["readme.txt".toList, "/Photos".toList, "song.wav".toList, "/Music".toList, "a.wav".toList]

/-- Page size 10 and a directory `/sd` with a file, folders and sound files,
on a library of which no result is known. -/
def unknown_env : Env := { listing_env 10 mixed_names with libc := libc_unknown }

/-- Four files. -/
def four_names : List (List Char) := [['a'], ['b'], ['c'], ['d']]

/-- A directory holding one folder whose name ends in a backslash. -/
def backslash_names : List (List Char) := [['/', 'a', '\\']]

/-- A directory whose first read fails. -/
def failing_read_env : Env :=
  { cfg := ⟨10, 128⟩, fs := demo_fs (some [none]), libc := libc_cleared }

/-- A file system on which `/sd` cannot be opened. -/
def failing_open_env : Env := { cfg := ⟨10, 128⟩, fs := demo_fs none, libc := libc_cleared }

/-- A state with a window, the path `/sd` and the given filter and count. -/
def at_sd (filter : List Char) (cnt : Nat) : Fsel :=
  { Fsel.init with fsel_path := "/sd".toList, fsel_filter := filter, fsel_file_cnt := cnt,
                   fsel_win := true }

/-- The state after opening `/sd` without filter in `demo_env`. -/
def demo_open : Fsel :=
  match lv_app_fsel_open demo_env 30 "/sd".toList none 0 none Fsel.init with
  | .ok s => s
  | .error _ => Fsel.init

/-- A path of 100 characters. -/
def long_path : List Char := '/' :: List.replicate 99 'd'

/-- A label of 40 characters. -/
def long_label : List Char := List.replicate 40 'x'

/-- A state with a window, a list and a callback, at the path `p`. -/
def picking_at (p : List Char) (ok_action : Option Nat) : Fsel :=
  { Fsel.init with fsel_path := p, fsel_filter := ['/'], fsel_win := true,
                   fsel_list := some [], fsel_param := 7, fsel_ok_action := ok_action }

/-- A path of 65537 characters that ends in a slash. -/
def wide_path : List Char := 'a' :: List.replicate 65535 'x' ++ ['/']

/-- A path buffer of 65538 bytes, over a file system on which no directory
opens. -/
def wide_env : Env := { cfg := ⟨10, 65538⟩, fs := demo_fs none, libc := libc_cleared }

/-- A library that stops after the slash. -/
def libc_cut : Libc := ⟨fun path _ => some (path ++ ['/'])⟩

/-- Page size 10 and a directory `/sd` with a file, folders and sound files,
on a library that stops after the slash. -/
def cut_env : Env := { listing_env 10 mixed_names with libc := libc_cut }

/-- Two sound files, a text file, a third sound file. -/
def wav_names : List (List Char) :=
  ["a.wav".toList, "b.wav".toList, "x.txt".toList, "c.wav".toList]

/-! ## Theorems -/

/-! ### The refresh of a directory read without error -/

theorem emit_loop_cons (env : Env) (c : Char) (cs : List Char) (rd : fs_readdir_t) (s : Fsel) :
    emit_loop env (some (c :: cs)) rd s =
      if page_full env ((add_elem env c cs s).call (.fs_readdir (fs_readdir rd).1)) then
        (((add_elem env c cs s).call (.fs_readdir (fs_readdir rd).1)).lv_list_add .NextPage
          "Next page".toList false, (fs_readdir rd).1.isSome)
      else emit_loop env (fs_readdir rd).1 (fs_readdir rd).2
        ((add_elem env c cs s).call (.fs_readdir (fs_readdir rd).1)) := by
  cases rd with
  | nil =>
    simp only [emit_loop, fs_readdir]
    split <;> simp [emit_loop]
  | cons r rd => simp only [emit_loop, fs_readdir]

theorem add_elem_eq (env : Env) (c : Char) (cs : List Char) (s : Fsel) :
    add_elem env c cs s =
      if matching env.fs s.fsel_filter (c :: cs) then
        { s with
          fsel_list := s.fsel_list.map (fun l => l ++ [entry_of s.fsel_filter (c :: cs)])
          fsel_file_cnt := u16 (s.fsel_file_cnt + 1) }
      else s := by
  unfold add_elem matching entry_of is_folder file_passes Fsel.lv_list_add
  by_cases hc : c = '/'
  · simp [hc]
  · by_cases hf : s.fsel_filter = []
    · simp [hc, hf]
    · by_cases hp : (env.fs.fs_get_ext (c :: cs) == s.fsel_filter && !folder_filter s.fsel_filter) = true
      · rw [if_neg hc]
        simp only [hp, Bool.or_true, if_true]
        have : ((!folder_filter s.fsel_filter && env.fs.fs_get_ext (c :: cs) == s.fsel_filter)) = true := by
          rw [Bool.and_comm]; exact hp
        simp [hc, this]
      · rw [if_neg hc]
        have h2 : ((!folder_filter s.fsel_filter && env.fs.fs_get_ext (c :: cs) == s.fsel_filter)) = false := by
          rw [Bool.and_comm]; simpa using hp
        have h3 : (env.fs.fs_get_ext (c :: cs) == s.fsel_filter && !folder_filter s.fsel_filter) = false := by
          simpa using hp
        simp [hc, hf, h2, h3]

theorem fs_readdir_map_some (l : List (List Char)) :
    fs_readdir (l.map some) = (some (cur_name l), l.tail.map some) := by
  cases l <;> simp [fs_readdir, cur_name]

/-- The display loop on a stream of successful reads.  `q` further matching
names fill the page. -/
theorem emit_loop_window (env : Env) (hP : 1 ≤ env.cfg.LV_APP_FSEL_PAGE_SIZE) :
    ∀ (all : List (List Char)) (s : Fsel) (l : List Entry),
    (∀ n ∈ all, n ≠ []) → s.fsel_list = some l →
    (s.fsel_file_cnt = 0 ∨ s.fsel_file_cnt % env.cfg.LV_APP_FSEL_PAGE_SIZE ≠ 0 ∨
      ∀ n ∈ all.head?, matching env.fs s.fsel_filter n = true) →
    s.fsel_file_cnt + min (env.cfg.LV_APP_FSEL_PAGE_SIZE
        - s.fsel_file_cnt % env.cfg.LV_APP_FSEL_PAGE_SIZE)
      (all.filter (matching env.fs s.fsel_filter)).length < 65536 →
    ∃ evs, emit_loop env (some (cur_name all)) (all.tail.map some) s =
      ({ s.calls evs with
          fsel_file_cnt := s.fsel_file_cnt + min (env.cfg.LV_APP_FSEL_PAGE_SIZE
              - s.fsel_file_cnt % env.cfg.LV_APP_FSEL_PAGE_SIZE)
            (all.filter (matching env.fs s.fsel_filter)).length
          fsel_list := some (l ++
            ((all.filter (matching env.fs s.fsel_filter)).take (env.cfg.LV_APP_FSEL_PAGE_SIZE
              - s.fsel_file_cnt % env.cfg.LV_APP_FSEL_PAGE_SIZE)).map (entry_of s.fsel_filter)
            ++ if env.cfg.LV_APP_FSEL_PAGE_SIZE
                - s.fsel_file_cnt % env.cfg.LV_APP_FSEL_PAGE_SIZE
                ≤ (all.filter (matching env.fs s.fsel_filter)).length then [next_elem] else []) },
        true) := by
  intro all
  induction all with
  | nil =>
    intro s l _ hl _ _
    refine ⟨[], ?_⟩
    have hq : ¬ env.cfg.LV_APP_FSEL_PAGE_SIZE
        - s.fsel_file_cnt % env.cfg.LV_APP_FSEL_PAGE_SIZE ≤ 0 := by
      have := Nat.mod_lt s.fsel_file_cnt hP
      omega
    obtain ⟨f, p, cnt, w, li, pa, ok, ffc, lg⟩ := s
    simp only at hl hq
    subst hl
    simp [cur_name, emit_loop, Fsel.calls, hq]
  | cons n rest ih =>
    intro s l hne hl harm hw
    set P := env.cfg.LV_APP_FSEL_PAGE_SIZE with hPdef
    have hmod := Nat.mod_lt s.fsel_file_cnt hP
    obtain ⟨c, cs, rfl⟩ : ∃ c cs, n = c :: cs := by
      have := hne n (by simp)
      cases n with
      | nil => exact absurd rfl this
      | cons c cs => exact ⟨c, cs, rfl⟩
    have hne' : ∀ n ∈ rest, n ≠ [] := fun n hn => hne n (by simp [hn])
    simp only [cur_name, List.headD_cons, List.tail_cons]
    rw [emit_loop_cons, fs_readdir_map_some, add_elem_eq]
    simp only
    by_cases hm : matching env.fs s.fsel_filter (c :: cs) = true
    · -- the name is displayed and counted
      rw [if_pos hm]
      simp only [List.filter_cons, hm, if_true, List.length_cons] at hw ⊢
      have hu : u16 (s.fsel_file_cnt + 1) = s.fsel_file_cnt + 1 := by
        unfold u16
        have : 1 ≤ min (P - s.fsel_file_cnt % P)
            ((List.filter (matching env.fs s.fsel_filter) rest).length + 1) := by
          rw [Nat.le_min]; omega
        omega
      rw [hu]
      by_cases hfull : (s.fsel_file_cnt + 1) % P = 0
      · -- the page is full
        have hq : P - s.fsel_file_cnt % P = 1 := by
          have h1 := Nat.mod_add_div s.fsel_file_cnt P
          have h2 := Nat.mod_add_div (s.fsel_file_cnt + 1) P
          rw [hfull] at h2
          by_contra hq
          have hlt : s.fsel_file_cnt % P + 1 < P := by omega
          have : (s.fsel_file_cnt + 1) % P = s.fsel_file_cnt % P + 1 := by
            rw [Nat.add_mod, Nat.mod_eq_of_lt (a := 1) (by omega)]
            exact Nat.mod_eq_of_lt hlt
          omega
        refine ⟨[.fs_readdir (some (cur_name rest))], ?_⟩
        have hpf : page_full env (Fsel.call { s with
            fsel_list := s.fsel_list.map (fun l => l ++ [entry_of s.fsel_filter (c :: cs)])
            fsel_file_cnt := s.fsel_file_cnt + 1 } (.fs_readdir (some (cur_name rest)))) = true := by
          simp [page_full, Fsel.call, ← hPdef, hfull]
        rw [if_pos hpf]
        simp [hq, Fsel.call, Fsel.calls, Fsel.lv_list_add, hl, next_elem]
      · -- the page is not full yet
        have hmod1 : (s.fsel_file_cnt + 1) % P = s.fsel_file_cnt % P + 1 := by
          have hlt : s.fsel_file_cnt % P + 1 < P := by
            by_contra hge
            have h1 := Nat.mod_add_div s.fsel_file_cnt P
            have : (s.fsel_file_cnt + 1) % P = 0 := by
              have e : s.fsel_file_cnt + 1 = P * (s.fsel_file_cnt / P + 1) := by
                rw [Nat.mul_add]; omega
              rw [e]; exact Nat.mul_mod_right _ _
            exact hfull this
          rw [Nat.add_mod, Nat.mod_eq_of_lt (a := 1) (by omega)]
          exact Nat.mod_eq_of_lt hlt
        obtain ⟨q, hq⟩ : ∃ q, P - s.fsel_file_cnt % P = q + 1 :=
          ⟨P - s.fsel_file_cnt % P - 1, by omega⟩
        have hq1 : P - (s.fsel_file_cnt + 1) % P = q := by omega
        have hpf : page_full env (Fsel.call { s with
            fsel_list := s.fsel_list.map (fun l => l ++ [entry_of s.fsel_filter (c :: cs)])
            fsel_file_cnt := s.fsel_file_cnt + 1 } (.fs_readdir (some (cur_name rest)))) = false := by
          simp [page_full, Fsel.call, ← hPdef, hfull]
        rw [hpf]
        simp only [Bool.false_eq_true, if_false]
        obtain ⟨evs, h⟩ := ih (Fsel.call { s with
            fsel_list := s.fsel_list.map (fun l => l ++ [entry_of s.fsel_filter (c :: cs)])
            fsel_file_cnt := s.fsel_file_cnt + 1 } (.fs_readdir (some (cur_name rest))))
          (l ++ [entry_of s.fsel_filter (c :: cs)]) hne' (by simp [Fsel.call, hl])
          (Or.inr (Or.inl (by simpa [Fsel.call, ← hPdef] using hfull)))
          (by
            simp only [Fsel.call, ← hPdef, hq1]
            rw [hq, Nat.add_min_add_right] at hw
            omega)
        refine ⟨.fs_readdir (some (cur_name rest)) :: evs, ?_⟩
        rw [h]
        simp only [Fsel.call, ← hPdef, hq1, hq, Nat.add_min_add_right, List.take_succ_cons,
          List.map_cons, Nat.add_le_add_iff_right, Fsel.calls]
        simp [Nat.add_assoc, Nat.add_comm 1]
    · -- the name is filtered out
      have hm' : matching env.fs s.fsel_filter (c :: cs) = false := by simpa using hm
      have harm' : s.fsel_file_cnt = 0 ∨ s.fsel_file_cnt % P ≠ 0 := by
        rcases harm with h | h | h
        · exact Or.inl h
        · exact Or.inr h
        · exact absurd (h (c :: cs) (by simp)) hm
      rw [hm']
      simp only [Bool.false_eq_true, if_false, List.filter_cons, hm'] at hw ⊢
      have hpf : page_full env (s.call (.fs_readdir (some (cur_name rest)))) = false := by
        rcases harm' with h | h
        · simp [page_full, Fsel.call, h]
        · simp [page_full, Fsel.call, ← hPdef, h]
      rw [hpf]
      simp only [Bool.false_eq_true, if_false]
      obtain ⟨evs, h⟩ := ih (s.call (.fs_readdir (some (cur_name rest)))) l hne'
        (by simp [Fsel.call, hl])
        (by
          rcases harm' with h | h
          · exact Or.inl (by simpa [Fsel.call] using h)
          · exact Or.inr (Or.inl (by simpa [Fsel.call, ← hPdef] using h)))
        (by simpa [Fsel.call, ← hPdef] using hw)
      refine ⟨.fs_readdir (some (cur_name rest)) :: evs, ?_⟩
      rw [h]
      simp [Fsel.call, Fsel.calls, ← hPdef]

theorem skip_loop_reads (m : Nat) : ∀ (fuel i : Nat) (s : Fsel) (fn : List Char)
    (l : List (List Char)),
    s.fsel_file_cnt < 65535 → i + m = s.fsel_file_cnt + 1 → m < fuel →
    ∃ evs, skip_loop fuel s (l.map some) i fn =
      .ok (.done (s.calls evs) ((l.drop m).map some)
        (if m = 0 then fn else cur_name (l.drop (m - 1)))) := by
  induction m with
  | zero =>
    intro fuel i s fn l h1 h2 h3
    obtain ⟨fuel, rfl⟩ : ∃ f, fuel = f + 1 := ⟨fuel - 1, by omega⟩
    refine ⟨[], ?_⟩
    unfold skip_loop
    rw [if_neg (by omega)]
    simp [Fsel.calls]
  | succ m ih =>
    intro fuel i s fn l h1 h2 h3
    obtain ⟨fuel, rfl⟩ : ∃ f, fuel = f + 1 := ⟨fuel - 1, by omega⟩
    unfold skip_loop
    rw [if_pos (by omega), fs_readdir_map_some]
    simp only
    have hu : u16 (i + 1) = i + 1 := by unfold u16; omega
    rw [hu]
    obtain ⟨evs, h⟩ := ih fuel (i + 1) (s.call (.fs_readdir (some (cur_name l)))) (cur_name l)
      l.tail (by simpa [Fsel.call] using h1) (by simp [Fsel.call]; omega) (by omega)
    refine ⟨.fs_readdir (some (cur_name l)) :: evs, ?_⟩
    rw [h]
    by_cases hm : m = 0
    · subst hm; simp [Fsel.call, Fsel.calls]
    · have : m - 1 + 1 = m := by omega
      simp [hm, List.drop_tail, this, Fsel.call, Fsel.calls]

theorem fsel_refr_dir_listing (env : Env) (hP : 1 ≤ env.cfg.LV_APP_FSEL_PAGE_SIZE) (fuel : Nat)
    (s : Fsel) (l : List Entry) (names : List (List Char))
    (hl : s.fsel_list = some l)
    (hne : ∀ n ∈ names, n ≠ [])
    (hfuel : s.fsel_file_cnt + 2 ≤ fuel)
    (harm : s.fsel_file_cnt = 0 ∨ s.fsel_file_cnt % env.cfg.LV_APP_FSEL_PAGE_SIZE ≠ 0 ∨
      ∀ n ∈ (names.drop s.fsel_file_cnt).head?, matching env.fs s.fsel_filter n = true)
    (hw : s.fsel_file_cnt + env.cfg.LV_APP_FSEL_PAGE_SIZE < 65536) :
    ∃ evs, fsel_refr_dir env fuel s (names.map some) = .ok
      { s.calls evs with
        fsel_file_cnt := s.fsel_file_cnt + min (env.cfg.LV_APP_FSEL_PAGE_SIZE
            - s.fsel_file_cnt % env.cfg.LV_APP_FSEL_PAGE_SIZE)
          ((names.drop s.fsel_file_cnt).filter (matching env.fs s.fsel_filter)).length
        fsel_list := some (l ++ (page_head s.fsel_file_cnt).tail ++
          (((names.drop s.fsel_file_cnt).filter (matching env.fs s.fsel_filter)).take
            (env.cfg.LV_APP_FSEL_PAGE_SIZE
              - s.fsel_file_cnt % env.cfg.LV_APP_FSEL_PAGE_SIZE)).map (entry_of s.fsel_filter)
          ++ if env.cfg.LV_APP_FSEL_PAGE_SIZE
              - s.fsel_file_cnt % env.cfg.LV_APP_FSEL_PAGE_SIZE
              ≤ ((names.drop s.fsel_file_cnt).filter (matching env.fs s.fsel_filter)).length
            then [next_elem] else []) } := by
  unfold fsel_refr_dir
  set s6 : Fsel := if s.fsel_file_cnt ≠ 0 then
      s.lv_list_add .PreviousPage "Previous page".toList false else s with hs6
  have h6c : s6.fsel_file_cnt = s.fsel_file_cnt := by
    rw [hs6]; split <;> simp [Fsel.lv_list_add]
  have h6f : s6.fsel_filter = s.fsel_filter := by
    rw [hs6]; split <;> simp [Fsel.lv_list_add]
  have h6l : s6.fsel_list = some (l ++ (page_head s.fsel_file_cnt).tail) := by
    rw [hs6]; split <;> simp_all [Fsel.lv_list_add, page_head]
  have h6 : s6 = { s with fsel_list := s6.fsel_list } := by
    rw [hs6]; split <;> simp [Fsel.lv_list_add]
  obtain ⟨evs1, h1⟩ := skip_loop_reads (s.fsel_file_cnt + 1) fuel 0 s6 [] names
    (by rw [h6c]; have := hP; omega) (by rw [h6c]; omega) (by omega)
  simp only [h1, Nat.add_sub_cancel, Nat.succ_ne_zero, if_false]
  have hne' : ∀ n ∈ names.drop s.fsel_file_cnt, n ≠ [] :=
    fun n hn => hne n (List.mem_of_mem_drop hn)
  obtain ⟨evs2, h2⟩ := emit_loop_window env hP (names.drop s.fsel_file_cnt) (s6.calls evs1)
    (l ++ (page_head s.fsel_file_cnt).tail) hne' (by simpa [Fsel.calls] using h6l)
    (by simpa [Fsel.calls, h6c, h6f] using harm)
    (by
      simp only [Fsel.calls, h6c, h6f]
      have := Nat.min_le_left (env.cfg.LV_APP_FSEL_PAGE_SIZE
        - s.fsel_file_cnt % env.cfg.LV_APP_FSEL_PAGE_SIZE)
        ((names.drop s.fsel_file_cnt).filter (matching env.fs s.fsel_filter)).length
      omega)
  rw [List.tail_drop] at h2
  rw [h2]
  refine ⟨evs1 ++ evs2 ++ [.fs_readdir_close], ?_⟩
  simp only [if_true, Fsel.calls, Fsel.call, h6c, h6f]
  rw [h6]
  simp

theorem fsel_refr_new_list_eq (s : Fsel) :
    ∃ evs, fsel_refr_new_list s = { s.calls evs with fsel_list := some [] } := by
  unfold fsel_refr_new_list
  by_cases h : s.fsel_list.isSome = true
  · exact ⟨[.lv_obj_del_list, .lv_win_set_title s.fsel_path, .lv_list_create], by
      simp [h, Fsel.call, Fsel.calls]⟩
  · exact ⟨[.lv_win_set_title s.fsel_path, .lv_list_create], by
      simp [h, Fsel.call, Fsel.calls]⟩

/-- Refresh of a directory whose reads all succeed: the page lists the first
matching names after the `fsel_file_cnt` names read over, up to the next
multiple of the page size. -/
theorem fsel_refr_listing (env : Env) (hP : 1 ≤ env.cfg.LV_APP_FSEL_PAGE_SIZE) (fuel : Nat)
    (s : Fsel) (names : List (List Char))
    (hpath : s.fsel_path ≠ [])
    (hdir : env.fs.fs_readdir_init s.fsel_path = some (names.map some))
    (hne : ∀ n ∈ names, n ≠ [])
    (hfuel : s.fsel_file_cnt + 2 ≤ fuel)
    (harm : s.fsel_file_cnt = 0 ∨ s.fsel_file_cnt % env.cfg.LV_APP_FSEL_PAGE_SIZE ≠ 0 ∨
      ∀ n ∈ (names.drop s.fsel_file_cnt).head?, matching env.fs s.fsel_filter n = true)
    (hw : s.fsel_file_cnt + env.cfg.LV_APP_FSEL_PAGE_SIZE < 65536) :
    ∃ evs, fsel_refr env fuel s = .ok
      { s.calls evs with
        fsel_file_cnt := s.fsel_file_cnt + min (env.cfg.LV_APP_FSEL_PAGE_SIZE
            - s.fsel_file_cnt % env.cfg.LV_APP_FSEL_PAGE_SIZE)
          ((names.drop s.fsel_file_cnt).filter (matching env.fs s.fsel_filter)).length
        fsel_list := some (page_head s.fsel_file_cnt ++
          (((names.drop s.fsel_file_cnt).filter (matching env.fs s.fsel_filter)).take
            (env.cfg.LV_APP_FSEL_PAGE_SIZE
              - s.fsel_file_cnt % env.cfg.LV_APP_FSEL_PAGE_SIZE)).map (entry_of s.fsel_filter)
          ++ if env.cfg.LV_APP_FSEL_PAGE_SIZE
              - s.fsel_file_cnt % env.cfg.LV_APP_FSEL_PAGE_SIZE
              ≤ ((names.drop s.fsel_file_cnt).filter (matching env.fs s.fsel_filter)).length
            then [next_elem] else []) } := by
  obtain ⟨evs0, h0⟩ := fsel_refr_new_list_eq s
  unfold fsel_refr
  rw [h0]
  simp only [Fsel.calls, Fsel.call, Fsel.lv_list_add, if_neg hpath, hdir, Option.map_some',
    List.nil_append]
  obtain ⟨evs, h⟩ := fsel_refr_dir_listing env hP fuel
    { s with fsel_list := some [⟨.Up, "Up".toList, false⟩],
             log := s.log ++ evs0 ++ [.fs_readdir_init s.fsel_path true] }
    [⟨.Up, "Up".toList, false⟩] names rfl hne hfuel harm hw
  rw [h]
  refine ⟨evs0 ++ [.fs_readdir_init s.fsel_path true] ++ evs, ?_⟩
  simp [Fsel.calls, page_head]

/-! ### What the refresh leaves alone -/

theorem same_session_refl (s : Fsel) : same_session s s := by simp [same_session]

theorem same_session_trans {a b c : Fsel} (h1 : same_session a b) (h2 : same_session b c) :
    same_session a c := by
  obtain ⟨h11, h12, h13, h14, h15, h16⟩ := h1
  obtain ⟨h21, h22, h23, h24, h25, h26⟩ := h2
  exact ⟨h21.trans h11, h22.trans h12, h23.trans h13, h24.trans h14, h25.trans h15,
    h26.trans h16⟩

theorem same_session_call (s : Fsel) (e : Event) : same_session s (s.call e) := by
  simp [same_session, Fsel.call]

theorem same_session_calls (s : Fsel) (evs : List Event) : same_session s (s.calls evs) := by
  simp [same_session, Fsel.calls]

theorem same_session_lv_list_add (s : Fsel) (k : Kind) (txt : List Char) (b : Bool) :
    same_session s (s.lv_list_add k txt b) := by
  simp [same_session, Fsel.lv_list_add]

theorem same_session_add_elem (env : Env) (c : Char) (cs : List Char) (s : Fsel) :
    same_session s (add_elem env c cs s) := by
  unfold add_elem
  split
  · simp [same_session, Fsel.lv_list_add]
  · split <;> simp [same_session, Fsel.lv_list_add]

theorem same_session_emit_loop (env : Env) : ∀ (rd : fs_readdir_t) (cur : ReadRes) (s : Fsel),
    same_session s (emit_loop env cur rd s).1 := by
  intro rd
  induction rd with
  | nil =>
    intro cur s
    rcases cur with _ | _ | ⟨c, cs⟩
    · simp [emit_loop, same_session_refl]
    · simp [emit_loop, same_session_refl]
    · simp only [emit_loop]
      have h1 := same_session_trans (same_session_add_elem env c cs s)
        (same_session_call _ (.fs_readdir (some [])))
      split
      · exact same_session_trans h1 (same_session_lv_list_add _ _ _ _)
      · exact h1
  | cons r rd ih =>
    intro cur s
    rcases cur with _ | _ | ⟨c, cs⟩
    · simp [emit_loop, same_session_refl]
    · simp [emit_loop, same_session_refl]
    · simp only [emit_loop]
      have h1 := same_session_trans (same_session_add_elem env c cs s)
        (same_session_call _ (.fs_readdir r))
      split
      · exact same_session_trans h1 (same_session_lv_list_add _ _ _ _)
      · exact same_session_trans h1 (ih _ _)

theorem skip_loop_calls : ∀ (fuel : Nat) (s : Fsel) (rd : fs_readdir_t) (i : Nat)
    (fn : List Char) (r : Skip), skip_loop fuel s rd i fn = .ok r →
    ∃ evs, r.state = s.calls evs := by
  intro fuel
  induction fuel with
  | zero => intro s rd i fn r h; simp [skip_loop] at h
  | succ fuel ih =>
    intro s rd i fn r h
    unfold skip_loop at h
    split at h
    · split at h
      · injection h with h
        subst h
        exact ⟨[.fs_readdir none, .lv_app_notice_add .cannot_read], by
          simp [Skip.state, Fsel.call, Fsel.calls]⟩
      · rename_i fn1 rd1 _
        obtain ⟨evs, he⟩ := ih _ _ _ _ _ h
        exact ⟨.fs_readdir (some fn1) :: evs, by rw [he]; simp [Fsel.call, Fsel.calls]⟩
    · injection h with h
      subst h
      exact ⟨[], by simp [Skip.state, Fsel.calls]⟩

theorem same_session_drv_loop (filter : List Char) : ∀ (drv : List Char) (s : Fsel),
    same_session s (drv_loop filter drv s) := by
  intro drv
  induction drv with
  | nil => intro s; simp [drv_loop, same_session_refl]
  | cons c drv ih =>
    intro s
    simp only [drv_loop]
    exact same_session_trans (same_session_lv_list_add _ _ _ _) (ih _)

theorem same_session_fsel_refr_dir (env : Env) (fuel : Nat) (s t : Fsel) (rd : fs_readdir_t)
    (h : fsel_refr_dir env fuel s rd = .ok t) : same_session s t := by
  unfold fsel_refr_dir at h
  have h6 : same_session s (if s.fsel_file_cnt ≠ 0 then
      s.lv_list_add .PreviousPage "Previous page".toList false else s) := by
    split
    · exact same_session_lv_list_add _ _ _ _
    · exact same_session_refl _
  dsimp only at h
  generalize (if s.fsel_file_cnt ≠ 0 then
      s.lv_list_add .PreviousPage "Previous page".toList false else s) = s6 at h h6
  split at h
  · simp at h
  · rename_i s7 hs
    injection h with h
    subst h
    obtain ⟨evs, he⟩ := skip_loop_calls _ _ _ _ _ _ hs
    simp only [Skip.state] at he
    rw [he]
    exact same_session_trans h6 (same_session_calls _ _)
  · rename_i s7 rd1 fn hs
    injection h with h
    subst h
    obtain ⟨evs, he⟩ := skip_loop_calls _ _ _ _ _ _ hs
    simp only [Skip.state] at he
    have h7 := same_session_trans h6 (he ▸ same_session_calls _ evs)
    have h8 := same_session_trans h7 (same_session_emit_loop env rd1 (some fn) s7)
    have h9 := same_session_trans h8 (same_session_call _ .fs_readdir_close)
    split
    · exact h9
    · exact same_session_trans h9 (same_session_call _ _)

theorem same_session_new_list (s : Fsel) : same_session s (fsel_refr_new_list s) := by
  obtain ⟨evs, h⟩ := fsel_refr_new_list_eq s
  rw [h]
  simp [same_session, Fsel.calls]

/-- The refresh leaves path, filter, window, callback, parameter and flag as
they are. -/
theorem same_session_fsel_refr (env : Env) (fuel : Nat) (s t : Fsel)
    (h : fsel_refr env fuel s = .ok t) : same_session s t := by
  unfold fsel_refr at h
  have h3 := same_session_new_list s
  dsimp only at h
  split at h
  · injection h with h
    subst h
    exact same_session_trans (same_session_trans h3 (same_session_call _ _))
      (same_session_drv_loop _ _ _)
  · have h4 := same_session_trans h3
      (same_session_lv_list_add (fsel_refr_new_list s) .Up "Up".toList false)
    split at h
    · injection h with h
      subst h
      exact same_session_trans (same_session_trans h4 (same_session_call _ _))
        (same_session_call _ _)
    · exact same_session_trans (same_session_trans h4 (same_session_call _ _))
        (same_session_fsel_refr_dir _ _ _ _ _ h)

/-! ### The refresh returns -/

/-- The loop over the previous pages ends on every directory when the count
is below 65535 and the fuel exceeds the number of reads left. -/
theorem skip_loop_returns (m : Nat) : ∀ (fuel i : Nat) (s : Fsel) (rd : fs_readdir_t)
    (fn : List Char),
    s.fsel_file_cnt < 65535 → i + m = s.fsel_file_cnt + 1 → m < fuel →
    ∃ r, skip_loop fuel s rd i fn = .ok r := by
  induction m with
  | zero =>
    intro fuel i s rd fn h1 h2 h3
    obtain ⟨fuel, rfl⟩ : ∃ f, fuel = f + 1 := ⟨fuel - 1, by omega⟩
    unfold skip_loop
    rw [if_neg (by omega)]
    exact ⟨_, rfl⟩
  | succ m ih =>
    intro fuel i s rd fn h1 h2 h3
    obtain ⟨fuel, rfl⟩ : ∃ f, fuel = f + 1 := ⟨fuel - 1, by omega⟩
    unfold skip_loop
    rw [if_pos (by omega)]
    have hu : u16 (i + 1) = i + 1 := by unfold u16; omega
    rcases hrd : fs_readdir rd with ⟨_ | fn1, rd1⟩
    · exact ⟨_, rfl⟩
    · simp only [hu]
      exact ih fuel (i + 1) (s.call (.fs_readdir (some fn1))) rd1 fn1
        (by simpa [Fsel.call] using h1) (by simp [Fsel.call]; omega) (by omega)

/-- The refresh returns on every file system when the count is below 65535
and the fuel exceeds the count by two. -/
theorem fsel_refr_returns (env : Env) (fuel : Nat) (s : Fsel)
    (hcnt : s.fsel_file_cnt < 65535) (hfuel : s.fsel_file_cnt + 2 ≤ fuel) :
    ∃ t, fsel_refr env fuel s = .ok t := by
  unfold fsel_refr
  dsimp only
  split
  · exact ⟨_, rfl⟩
  · split
    · exact ⟨_, rfl⟩
    · rename_i rd _
      unfold fsel_refr_dir
      dsimp only
      obtain ⟨evs, h0⟩ := fsel_refr_new_list_eq s
      have hc : ∀ t : Fsel, t.fsel_file_cnt = s.fsel_file_cnt →
          (if t.fsel_file_cnt ≠ 0 then
            t.lv_list_add .PreviousPage "Previous page".toList false else t).fsel_file_cnt
            = s.fsel_file_cnt := by
        intro t ht
        split
        · simpa [Fsel.lv_list_add] using ht
        · exact ht
      have h5 : (((fsel_refr_new_list s).lv_list_add .Up "Up".toList false).call
          (.fs_readdir_init ((fsel_refr_new_list s).lv_list_add .Up "Up".toList false).fsel_path
            true)).fsel_file_cnt = s.fsel_file_cnt := by
        rw [h0]; rfl
      obtain ⟨r, hr⟩ := skip_loop_returns (s.fsel_file_cnt + 1) fuel 0 _ rd []
        (by rw [hc _ h5]; exact hcnt) (by rw [hc _ h5]; omega) (by omega)
      rw [hr]
      cases r with
      | failed s7 => exact ⟨_, rfl⟩
      | done s7 rd1 fn => exact ⟨_, rfl⟩

/-! ### C1: paging without filter -/

theorem entry_of_kind (f n : List Char) :
    (entry_of f n).kind = .Folder ∨ (entry_of f n).kind = .File := by
  unfold entry_of; split <;> simp

/-- The files and folders of a directory page are the elements between its
head and its next page element. -/
theorem shown_page (s : Fsel) (c : Nat) (f : List Char) (es : List (List Char)) (tl : List Entry)
    (htl : tl = [] ∨ tl = [next_elem])
    (h : s.fsel_list = some (page_head c ++ es.map (entry_of f) ++ tl)) :
    shown s = es.map (entry_of f) := by
  have h1 : (page_head c).filter (fun e => e.kind == .Folder || e.kind == .File) = [] := by
    unfold page_head; split <;> rfl
  have h2 : tl.filter (fun e => e.kind == .Folder || e.kind == .File) = [] := by
    rcases htl with rfl | rfl <;> rfl
  have h3 : (es.map (entry_of f)).filter (fun e => e.kind == .Folder || e.kind == .File)
      = es.map (entry_of f) := by
    rw [List.filter_eq_self]
    intro e he
    obtain ⟨n, _, rfl⟩ := List.mem_map.1 he
    rcases entry_of_kind f n with h | h <;> simp [h]
  simp [shown, h, List.filter_append, h1, h2, h3]

theorem shows_next_page (s : Fsel) (c : Nat) (f : List Char) (es : List (List Char))
    (tl : List Entry) (htl : tl = [] ∨ tl = [next_elem])
    (h : s.fsel_list = some (page_head c ++ es.map (entry_of f) ++ tl)) :
    shows_kind s .NextPage = true ↔ tl = [next_elem] := by
  have h1 : (page_head c).any (fun e => e.kind == .NextPage) = false := by
    unfold page_head; split <;> simp
  have h3 : (es.map (entry_of f)).any (fun e => e.kind == .NextPage) = false := by
    rw [List.any_eq_false]
    intro e he
    obtain ⟨n, _, rfl⟩ := List.mem_map.1 he
    rcases entry_of_kind f n with h | h <;> simp [h]
  rcases htl with rfl | rfl
  · simp [shows_kind, h, h1, h3, List.any_append]
  · simp [shows_kind, h, h1, h3, List.any_append, next_elem]

theorem lv_app_fsel_open_ok {env : Env} {fuel : Nat} {path : List Char}
    {filter : Option (List Char)} {param : Nat} {ok_action : Option Nat} {s0 s : Fsel}
    (h : lv_app_fsel_open env fuel path filter param ok_action s0 = .ok s) :
    ∃ p s3, path.length < env.cfg.LV_APP_FSEL_PATH_MAX_LEN ∧
      trim_loop env.cfg fuel path (u16 (path.length + 65535)) = .ok p ∧
      fsel_refr env fuel { s0 with
        fsel_path := p, fsel_filter := filter.getD [], fsel_file_cnt := 0, fsel_param := param,
        fsel_ok_action := ok_action, fsel_win := true, log := s0.log ++ [.lv_win_create] }
        = .ok s3 ∧
      s.fsel_path = s3.fsel_path ∧ s.fsel_filter = s3.fsel_filter ∧
      s.fsel_file_cnt = s3.fsel_file_cnt ∧ s.fsel_list = s3.fsel_list ∧
      s.fsel_win = s3.fsel_win ∧ s.fsel_param = s3.fsel_param ∧
      s.fsel_ok_action = s3.fsel_ok_action := by
  unfold lv_app_fsel_open at h
  split at h
  · simp at h
  · rename_i hlen
    split at h
    · simp at h
    · rename_i p hp
      dsimp only [Fsel.call] at h
      split at h
      · simp at h
      · rename_i s3 h3
        refine ⟨p, s3, by omega, hp, h3, ?_⟩
        split at h <;> injection h with h <;> subst h <;> simp [Fsel.call]

theorem matching_nil (fs : Fs) (n : List Char) : matching fs [] n = true := by
  simp [matching]

theorem fsel_refr_is_page (env : Env) (hP : 1 ≤ env.cfg.LV_APP_FSEL_PAGE_SIZE) (fuel : Nat)
    (names : List (List Char)) (path : List Char) (j : Nat) (t : Fsel)
    (hpath : path ≠ []) (ht : t.fsel_path = path)
    (hdir : env.fs.fs_readdir_init path = some (names.map some))
    (hne : ∀ n ∈ names, n ≠ [])
    (hf : t.fsel_filter = [])
    (hc : t.fsel_file_cnt = j * env.cfg.LV_APP_FSEL_PAGE_SIZE)
    (hj : j * env.cfg.LV_APP_FSEL_PAGE_SIZE ≤ names.length)
    (hN : names.length + env.cfg.LV_APP_FSEL_PAGE_SIZE < 65536)
    (hfuel : names.length + 2 ≤ fuel) :
    ∃ t', fsel_refr env fuel t = .ok t' ∧ is_page env names path j t' := by
  obtain ⟨evs, h⟩ := fsel_refr_listing env hP fuel t names (ht ▸ hpath) (ht ▸ hdir) hne
    (by omega) (Or.inr (Or.inr (fun n _ => by rw [hf]; exact matching_nil _ _))) (by omega)
  have hall : (names.drop (j * env.cfg.LV_APP_FSEL_PAGE_SIZE)).filter (matching env.fs [])
      = names.drop (j * env.cfg.LV_APP_FSEL_PAGE_SIZE) := by
    rw [List.filter_eq_self]
    intro n _
    exact matching_nil _ _
  have hmod : j * env.cfg.LV_APP_FSEL_PAGE_SIZE % env.cfg.LV_APP_FSEL_PAGE_SIZE = 0 :=
    Nat.mul_mod_left _ _
  have hsucc : (j + 1) * env.cfg.LV_APP_FSEL_PAGE_SIZE
      = j * env.cfg.LV_APP_FSEL_PAGE_SIZE + env.cfg.LV_APP_FSEL_PAGE_SIZE := Nat.succ_mul _ _
  rw [hf, hc, hall, hmod] at h
  refine ⟨_, h, ?_⟩
  simp only [is_page, Fsel.calls, Nat.sub_zero, List.length_drop, ht, hf, true_and]
  refine ⟨by omega, ?_⟩
  congr 2
  by_cases hle : (j + 1) * env.cfg.LV_APP_FSEL_PAGE_SIZE ≤ names.length
  · rw [if_pos hle, if_pos (by omega)]
  · rw [if_neg hle, if_neg (by omega)]

theorem run_next_is_page (env : Env) (hP : 1 ≤ env.cfg.LV_APP_FSEL_PAGE_SIZE) (fuel : Nat)
    (names : List (List Char)) (path : List Char)
    (hpath : path ≠ [])
    (hdir : env.fs.fs_readdir_init path = some (names.map some))
    (hne : ∀ n ∈ names, n ≠ [])
    (hN : names.length + env.cfg.LV_APP_FSEL_PAGE_SIZE < 65536)
    (hfuel : names.length + 2 ≤ fuel) :
    ∀ (k j : Nat) (t : Fsel), is_page env names path j t →
      (j + k) * env.cfg.LV_APP_FSEL_PAGE_SIZE ≤ names.length →
      ∃ t', run env fuel (List.replicate k Action.next) t = .ok t' ∧
        is_page env names path (j + k) t' := by
  intro k
  induction k with
  | zero => intro j t ht _; exact ⟨t, by simp [run], by simpa using ht⟩
  | succ k ih =>
    intro j t ht hk
    obtain ⟨h1, h2, h3, _⟩ := ht
    have hle : (j + 1) * env.cfg.LV_APP_FSEL_PAGE_SIZE ≤ names.length := by
      refine le_trans (Nat.mul_le_mul_right _ ?_) hk
      omega
    obtain ⟨t1, hr, hp1⟩ := fsel_refr_is_page env hP fuel names path (j + 1) t hpath h1 hdir hne
      h2 (by rw [h3]; exact Nat.min_eq_left hle) hle hN hfuel
    obtain ⟨t', hrun, hp'⟩ := ih (j + 1) t1 hp1 (by rw [Nat.add_right_comm, Nat.add_assoc] at *; simpa [Nat.add_comm 1 k] using hk)
    refine ⟨t', ?_, by rw [Nat.add_right_comm, Nat.add_assoc] at hp'; simpa [Nat.add_comm 1 k] using hp'⟩
    simp only [List.replicate_succ, run, step, fsel_next_action, hr]
    exact hrun

/-- C1: paging windows without filtering.  After `open` on a directory whose
`N` names all succeed (empty filter, `N + P < 2 ^ 16`), `k` presses of Next
with `k * P ≤ N` display exactly the names `k * P ..` up to `P` of them, in
order, and the page carries the next page element exactly when it holds `P`
names. -/
theorem paging_windows_unfiltered (env : Env) (fuel : Nat) (path : List Char)
    (filter : Option (List Char)) (param : Nat) (ok_action : Option Nat) (s0 s : Fsel)
    (names : List (List Char)) (k : Nat)
    (hP : 1 ≤ env.cfg.LV_APP_FSEL_PAGE_SIZE)
    (hfilter : filter.getD [] = [])
    (hopen : lv_app_fsel_open env fuel path filter param ok_action s0 = .ok s)
    (hpath : s.fsel_path ≠ [])
    (hdir : env.fs.fs_readdir_init s.fsel_path = some (names.map some))
    (hne : ∀ n ∈ names, n ≠ [])
    (hN : names.length + env.cfg.LV_APP_FSEL_PAGE_SIZE < 65536)
    (hk : k * env.cfg.LV_APP_FSEL_PAGE_SIZE ≤ names.length)
    (hfuel : names.length + 2 ≤ fuel) :
    ∃ sk, run env fuel (List.replicate k Action.next) s = .ok sk ∧
      shown sk = ((names.drop (k * env.cfg.LV_APP_FSEL_PAGE_SIZE)).take
        env.cfg.LV_APP_FSEL_PAGE_SIZE).map (entry_of []) ∧
      (shows_kind sk .NextPage = true ↔ (shown sk).length = env.cfg.LV_APP_FSEL_PAGE_SIZE) := by
  obtain ⟨p, s3, _, _, h3, e1, e2, e3, e4, _⟩ := lv_app_fsel_open_ok hopen
  have hss := same_session_fsel_refr _ _ _ _ h3
  have hp3 : s3.fsel_path = p := hss.1
  have hps : p = s.fsel_path := by rw [e1, hp3]
  obtain ⟨t0, hr0, hpage0⟩ := fsel_refr_is_page env hP fuel names s.fsel_path 0
    { s0 with
      fsel_path := p, fsel_filter := filter.getD [], fsel_file_cnt := 0, fsel_param := param,
      fsel_ok_action := ok_action, fsel_win := true, log := s0.log ++ [.lv_win_create] }
    hpath hps hdir hne hfilter (by simp) (by simp) hN hfuel
  rw [h3] at hr0
  injection hr0 with hr0
  subst hr0
  have hpage : is_page env names s.fsel_path 0 s := by
    obtain ⟨a, b, c, d⟩ := hpage0
    exact ⟨rfl, e2.trans b, e3.trans c, e4.trans d⟩
  obtain ⟨sk, hrun, hk1, hk2, hk3, hk4⟩ := run_next_is_page env hP fuel names s.fsel_path hpath
    hdir hne hN hfuel k 0 s hpage (by simpa using hk)
  rw [Nat.zero_add] at hk3 hk4
  refine ⟨sk, hrun, ?_, ?_⟩
  · exact shown_page sk _ [] _ _ (by split <;> simp) hk4
  · rw [shown_page sk _ [] _ _ (by split <;> simp) hk4,
      shows_next_page sk _ [] _ _ (by split <;> simp) hk4]
    have hsucc : (k + 1) * env.cfg.LV_APP_FSEL_PAGE_SIZE
        = k * env.cfg.LV_APP_FSEL_PAGE_SIZE + env.cfg.LV_APP_FSEL_PAGE_SIZE := Nat.succ_mul _ _
    simp only [List.length_map, List.length_take, List.length_drop]
    by_cases hle : (k + 1) * env.cfg.LV_APP_FSEL_PAGE_SIZE ≤ names.length
    · simp only [if_pos hle, true_iff]; omega
    · simp only [if_neg hle]
      constructor
      · intro h; simp at h
      · intro h; omega

/-- Witness of C1: page size 10 and 25 files; the page after two presses of
Next lists the names 20 to 24 and has no next page element. -/
theorem paging_windows_unfiltered_witness :
    ∃ sk, run demo_env 30 [Action.next, Action.next] demo_open = .ok sk ∧
      shown sk = ((demo_names.drop 20).take 10).map (entry_of []) ∧
      (shows_kind sk .NextPage = true ↔ (shown sk).length = 10) :=
  paging_windows_unfiltered demo_env 30 "/sd".toList none 0 none Fsel.init demo_open demo_names 2
    (by decide) rfl rfl (by decide) rfl (by decide) (by decide) (by decide) (by decide)

/-! ### C3: the first page under a filter -/

theorem entry_of_folder_filter (fs : Fs) (f n : List Char) (hf : folder_filter f = true)
    (hm : matching fs f n = true) : (entry_of f n).kind = .Folder := by
  have hne : f ≠ [] := by
    intro h; subst h; simp [folder_filter] at hf
  unfold matching at hm
  unfold entry_of
  by_cases h : is_folder n = true
  · simp [h]
  · simp [h, hf, hne] at hm

/-- C3: filter semantics on the first page.  A refresh at count 0 of a
directory whose reads all succeed displays, in enumeration order, the first
`min P m` matching names, `m` being the number of matching names; under a
folder filter every displayed element is a folder, and a folder matches under
every filter. -/
theorem first_page_filter_semantics (env : Env) (fuel : Nat) (s : Fsel)
    (names : List (List Char))
    (hP : 1 ≤ env.cfg.LV_APP_FSEL_PAGE_SIZE) (hP16 : env.cfg.LV_APP_FSEL_PAGE_SIZE < 65536)
    (hpath : s.fsel_path ≠ [])
    (hdir : env.fs.fs_readdir_init s.fsel_path = some (names.map some))
    (hne : ∀ n ∈ names, n ≠ [])
    (hcnt : s.fsel_file_cnt = 0)
    (hfuel : 2 ≤ fuel) :
    ∃ s', fsel_refr env fuel s = .ok s' ∧
      shown s' = ((names.filter (matching env.fs s.fsel_filter)).take
        env.cfg.LV_APP_FSEL_PAGE_SIZE).map (entry_of s.fsel_filter) ∧
      (shown s').length = min env.cfg.LV_APP_FSEL_PAGE_SIZE
        (names.filter (matching env.fs s.fsel_filter)).length ∧
      (folder_filter s.fsel_filter = true → ∀ e ∈ shown s', e.kind = .Folder) ∧
      (∀ n, is_folder n = true → matching env.fs s.fsel_filter n = true) := by
  obtain ⟨evs, h⟩ := fsel_refr_listing env hP fuel s names hpath hdir hne (by omega)
    (Or.inl hcnt) (by omega)
  rw [hcnt] at h
  simp only [Nat.zero_mod, Nat.sub_zero, List.drop_zero, Nat.zero_add] at h
  obtain ⟨s', hs'⟩ : ∃ s', fsel_refr env fuel s = .ok s' := ⟨_, h⟩
  have hl : s'.fsel_list = some (page_head 0 ++
      ((names.filter (matching env.fs s.fsel_filter)).take
        env.cfg.LV_APP_FSEL_PAGE_SIZE).map (entry_of s.fsel_filter) ++
      if env.cfg.LV_APP_FSEL_PAGE_SIZE ≤ (names.filter (matching env.fs s.fsel_filter)).length
        then [next_elem] else []) := by
    rw [h] at hs'
    injection hs' with hs'
    rw [← hs']
  have hsh := shown_page s' 0 s.fsel_filter _ _ (by split <;> simp) hl
  refine ⟨s', hs', hsh, ?_, ?_, ?_⟩
  · rw [hsh]; simp [List.length_take]
  · intro hf e he
    rw [hsh] at he
    obtain ⟨n, hn, rfl⟩ := List.mem_map.1 he
    have hm := (List.mem_filter.1 (List.mem_of_mem_take hn)).2
    exact entry_of_folder_filter env.fs _ _ hf hm
  · intro n hn
    simp [matching, hn]


/-- Witness of C3: filter `wav`, page size 2, on the directory `readme.txt,
/Photos, song.wav, /Music, a.wav`. -/
theorem first_page_filter_semantics_witness :
    ∃ s', fsel_refr (listing_env 2 mixed_names) 2 (at_sd "wav".toList 0) = .ok s' ∧
      shown s' = [⟨.Folder, "Photos".toList, false⟩, ⟨.File, "song.wav".toList, false⟩] ∧
      (shown s').length = 2 :=
  (first_page_filter_semantics (listing_env 2 mixed_names) 2 (at_sd "wav".toList 0) mixed_names
    (by decide) (by decide) (by decide) rfl (by decide) rfl (by decide)).imp
    (fun _ h => ⟨h.1, h.2.1.trans (by decide), h.2.2.1.trans (by decide)⟩)

/-! ### C2 and C4: paging on evaluated inputs -/

/-- C2, evaluated: with the filter `wav` and page size 2 on the directory
`readme.txt, /Photos, song.wav, /Music, a.wav`, the first page shows `Photos`
and `song.wav` (the count is 2); after Next the loop over the previous pages
has read three names, the hidden `readme.txt` among them, and the second page
begins with `song.wav` again. -/
theorem skip_phase_counts_every_name :
    ∃ s1 s2, session (listing_env 2 mixed_names) 10 "/sd".toList (some "wav".toList) 0 none []
        = .ok s1 ∧
      shown s1 = [⟨.Folder, "Photos".toList, false⟩, ⟨.File, "song.wav".toList, false⟩] ∧
      shows_kind s1 .NextPage = true ∧ s1.fsel_file_cnt = 2 ∧
      fsel_next_action (listing_env 2 mixed_names) 10 s1 = .ok s2 ∧
      shown s2 = [⟨.File, "song.wav".toList, false⟩, ⟨.Folder, "Music".toList, false⟩] :=
  ⟨_, _, rfl, rfl, rfl, rfl, rfl, rfl⟩

/-- C4, evaluated: page size 2 and four files `a, b, c, d`.  Two presses of
Next lead to page 2, which is empty and has the count 4; Previous sets the
count to 0 and displays page 0 (`a, b`), not page 1 (`c, d`). -/
theorem previous_from_empty_page_skips_a_page :
    ∃ s1 s2 s3,
      session (listing_env 2 four_names) 10 "/sd".toList none 0 none [.next] = .ok s1 ∧
      shown s1 = [⟨.File, ['c'], false⟩, ⟨.File, ['d'], false⟩] ∧
      shows_kind s1 .NextPage = true ∧
      session (listing_env 2 four_names) 10 "/sd".toList none 0 none [.next, .next] = .ok s2 ∧
      shown s2 = [] ∧ s2.fsel_file_cnt = 4 ∧ offered s2 .prev = true ∧
      fsel_prev_action (listing_env 2 four_names) 10 s2 = .ok s3 ∧
      shown s3 = [⟨.File, ['a'], false⟩, ⟨.File, ['b'], false⟩] :=
  ⟨_, _, _, rfl, rfl, rfl, rfl, rfl, rfl, rfl, rfl, rfl⟩


/-! ### The `sprintf` calls -/

/-- A `sprintf` into `fsel_path` that returns has changed the path and
nothing else, and the string fits. -/
theorem sprintf_fsel_path_ok {cfg : Config} {str : List Char} {s s1 : Fsel}
    (h : sprintf_fsel_path cfg str s = .ok s1) :
    s1 = { s with fsel_path := str } ∧ str.length < cfg.LV_APP_FSEL_PATH_MAX_LEN := by
  unfold sprintf_fsel_path at h
  split at h
  · simp at h
  · rename_i hlen
    injection h with h
    exact ⟨h.symm, by omega⟩

/-- The `sprintf` of the folder and file actions, when it returns, has stored
the string that the library leaves, and nothing else. -/
theorem sprintf_fsel_path_self_ok {env : Env} {txt : List Char} {s s1 : Fsel}
    (h : sprintf_fsel_path_self env txt s = .ok s1) :
    ∃ str, env.libc.sprintf_self s.fsel_path txt = some str ∧
      s1 = { s with fsel_path := str } ∧ str.length < env.cfg.LV_APP_FSEL_PATH_MAX_LEN := by
  unfold sprintf_fsel_path_self at h
  split at h
  · simp at h
  · rename_i str hstr
    exact ⟨str, hstr, sprintf_fsel_path_ok h⟩


/-! ### C5: the picks -/

/-- The picks on every library: when the `sprintf` leaves the string `str` in
`fsel_path` and it fits, the long press on a folder and the release on a file
both call the `ok_action` once with the parameter and `str` when one is
registered and not at all otherwise, make no call of the refresh, and leave
both object pointers `NULL`; filter, count, parameter and callback stay as
they are. -/
theorem picks_call_back_and_close (env : Env) (s : Fsel) (L str : List Char)
    (hstr : env.libc.sprintf_self s.fsel_path L = some str)
    (hfit : str.length < env.cfg.LV_APP_FSEL_PATH_MAX_LEN) :
    ∃ s', fsel_folder_lpr_action env L s = .ok s' ∧ fsel_file_action env L s = .ok s' ∧
      s'.fsel_path = str ∧ s'.log = s.log ++ pick_calls s str ∧
      s'.fsel_win = false ∧ s'.fsel_list = none ∧
      s'.fsel_filter = s.fsel_filter ∧ s'.fsel_file_cnt = s.fsel_file_cnt ∧
      s'.fsel_param = s.fsel_param ∧ s'.fsel_ok_action = s.fsel_ok_action := by
  have hlen : ¬ env.cfg.LV_APP_FSEL_PATH_MAX_LEN ≤ str.length := by omega
  refine ⟨lv_app_fsel_close (call_ok_action { s with fsel_path := str }),
    by simp only [fsel_folder_lpr_action, sprintf_fsel_path_self, hstr, sprintf_fsel_path,
      if_neg hlen],
    by simp only [fsel_file_action, sprintf_fsel_path_self, hstr, sprintf_fsel_path,
      if_neg hlen], ?_⟩
  cases hcb : s.fsel_ok_action <;> cases hw : s.fsel_win <;>
    simp [lv_app_fsel_close, call_ok_action, pick_calls, Fsel.call, hcb, hw]

/-- C5, evaluated: the picks lose the current path on a library that empties
the destination of `sprintf` first.  After `open` on `/sd` with a callback,
the long press on the folder `Photos` (folder filter) calls the callback with
`/Photos`, and the release on the file `song.wav` (no filter) calls it with
`/song.wav`, where the path was `/sd`; on a library of which no result is
known the pick leaves the defined behaviour. -/
theorem pick_calls_back_without_current_path :
    (∃ s1 s2, lv_app_fsel_open (listing_env 10 mixed_names) 10 "/sd".toList (some ['/']) 7
        (some 1) Fsel.init = .ok s1 ∧
      s1.fsel_path = "/sd".toList ∧ offered s1 (.folder_lpr "Photos".toList) = true ∧
      step (listing_env 10 mixed_names) 10 s1 (.folder_lpr "Photos".toList) = .ok s2 ∧
      s2.fsel_path = "/Photos".toList ∧
      s2.log = s1.log ++ [.ok_action 1 7 "/Photos".toList, .lv_obj_del_win] ∧
      s2.fsel_win = false ∧ s2.fsel_list = none) ∧
    (∃ s1 s2, lv_app_fsel_open (listing_env 10 mixed_names) 10 "/sd".toList none 7
        (some 1) Fsel.init = .ok s1 ∧
      s1.fsel_path = "/sd".toList ∧ offered s1 (.file "song.wav".toList) = true ∧
      step (listing_env 10 mixed_names) 10 s1 (.file "song.wav".toList) = .ok s2 ∧
      s2.fsel_path = "/song.wav".toList ∧
      s2.log = s1.log ++ [.ok_action 1 7 "/song.wav".toList, .lv_obj_del_win] ∧
      s2.fsel_win = false ∧ s2.fsel_list = none) ∧
    (∃ s1, lv_app_fsel_open unknown_env 10 "/sd".toList (some ['/']) 7 (some 1) Fsel.init
        = .ok s1 ∧
      offered s1 (.folder_lpr "Photos".toList) = true ∧
      step unknown_env 10 s1 (.folder_lpr "Photos".toList) = .error .sprintf_overlap) :=
  ⟨⟨_, _, rfl, rfl, rfl, rfl, rfl, rfl, rfl, rfl⟩, ⟨_, _, rfl, rfl, rfl, rfl, rfl, rfl, rfl, rfl⟩,
    ⟨_, rfl, rfl, rfl⟩⟩

set_option maxRecDepth 8192 in
/-- No length is checked either: on a library that formats in place, from a
path of 100 characters the pick of a label of 40 characters writes 142 bytes
into the 128 bytes of `fsel_path`. -/
theorem pick_overflows_path_buffer :
    long_path.length < (in_place_env 10 demo_names).cfg.LV_APP_FSEL_PATH_MAX_LEN ∧
    fsel_folder_lpr_action (in_place_env 10 demo_names) long_label
      (picking_at long_path (some 1)) = .error (.path_overflow 141) ∧
    fsel_file_action (in_place_env 10 demo_names) long_label (picking_at long_path (some 1))
      = .error (.path_overflow 141) :=
  ⟨by decide, rfl, rfl⟩


/-! ### The next page element and the count -/

theorem shows_kind_call (s : Fsel) (e : Event) (k : Kind) :
    shows_kind (s.call e) k = shows_kind s k := rfl

theorem shows_kind_calls (s : Fsel) (evs : List Event) (k : Kind) :
    shows_kind (s.calls evs) k = shows_kind s k := rfl

theorem shows_kind_lv_list_add_ne (s : Fsel) (k k1 : Kind) (txt : List Char) (b : Bool)
    (h : k1 ≠ k) : shows_kind (s.lv_list_add k1 txt b) k = shows_kind s k := by
  unfold shows_kind Fsel.lv_list_add
  cases s.fsel_list with
  | none => rfl
  | some l => simp [List.any_append, h]

theorem shows_kind_add_elem (env : Env) (c : Char) (cs : List Char) (s : Fsel) :
    shows_kind (add_elem env c cs s) .NextPage = shows_kind s .NextPage := by
  unfold add_elem
  split
  · exact shows_kind_lv_list_add_ne s _ _ _ _ (by decide)
  · split
    · exact shows_kind_lv_list_add_ne s _ _ _ _ (by decide)
    · rfl

theorem page_full_call (env : Env) (s : Fsel) (e : Event) :
    page_full env (s.call e) = page_full env s := rfl

theorem page_full_lv_list_add (env : Env) (s : Fsel) (k : Kind) (txt : List Char) (b : Bool) :
    page_full env (s.lv_list_add k txt b) = page_full env s := rfl

/-- The display loop adds the next page element only at a count that is a
non-zero multiple of the page size, and leaves the count there. -/
theorem emit_loop_next_page (env : Env) : ∀ (rd : fs_readdir_t) (cur : ReadRes) (s : Fsel),
    shows_kind s .NextPage = false →
    shows_kind (emit_loop env cur rd s).1 .NextPage = true →
    page_full env (emit_loop env cur rd s).1 = true := by
  intro rd
  induction rd with
  | nil =>
    intro cur s hs h
    rcases cur with _ | _ | ⟨c, cs⟩
    · simp [emit_loop, hs] at h
    · simp [emit_loop, hs] at h
    · simp only [emit_loop] at h ⊢
      split
      · rename_i hpf
        simpa [page_full_lv_list_add] using hpf
      · rename_i hpf
        rw [if_neg hpf, shows_kind_call, shows_kind_add_elem, hs] at h
        simp at h
  | cons r rd ih =>
    intro cur s hs h
    rcases cur with _ | _ | ⟨c, cs⟩
    · simp [emit_loop, hs] at h
    · simp [emit_loop, hs] at h
    · simp only [emit_loop] at h ⊢
      split
      · rename_i hpf
        simpa [page_full_lv_list_add] using hpf
      · rename_i hpf
        rw [if_neg hpf] at h
        exact ih _ _ (by rw [shows_kind_call, shows_kind_add_elem, hs]) h

theorem shows_kind_drv_loop (filter : List Char) : ∀ (drv : List Char) (s : Fsel),
    shows_kind (drv_loop filter drv s) .NextPage = shows_kind s .NextPage := by
  intro drv
  induction drv with
  | nil => intro s; rfl
  | cons c drv ih =>
    intro s
    simp only [drv_loop]
    rw [ih, shows_kind_lv_list_add_ne _ _ _ _ _ (by decide)]

theorem shows_kind_new_list (s : Fsel) (k : Kind) :
    shows_kind (fsel_refr_new_list s) k = false := by
  obtain ⟨evs, h⟩ := fsel_refr_new_list_eq s
  rw [h]
  rfl

theorem fsel_refr_dir_next_page (env : Env) (fuel : Nat) (s t : Fsel) (rd : fs_readdir_t)
    (hs : shows_kind s .NextPage = false)
    (h : fsel_refr_dir env fuel s rd = .ok t) (hn : shows_kind t .NextPage = true) :
    page_full env t = true := by
  unfold fsel_refr_dir at h
  have h6 : shows_kind (if s.fsel_file_cnt ≠ 0 then
      s.lv_list_add .PreviousPage "Previous page".toList false else s) .NextPage = false := by
    split
    · rw [shows_kind_lv_list_add_ne _ _ _ _ _ (by decide), hs]
    · exact hs
  dsimp only at h
  generalize (if s.fsel_file_cnt ≠ 0 then
      s.lv_list_add .PreviousPage "Previous page".toList false else s) = s6 at h h6
  split at h
  · simp at h
  · rename_i s7 hsk
    injection h with h
    subst h
    obtain ⟨evs, he⟩ := skip_loop_calls _ _ _ _ _ _ hsk
    simp only [Skip.state] at he
    rw [he, shows_kind_calls, h6] at hn
    simp at hn
  · rename_i s7 rd1 fn hsk
    injection h with h
    subst h
    obtain ⟨evs, he⟩ := skip_loop_calls _ _ _ _ _ _ hsk
    simp only [Skip.state] at he
    have h7 : shows_kind s7 .NextPage = false := by rw [he, shows_kind_calls, h6]
    have key := emit_loop_next_page env rd1 (some fn) s7 h7
    split at hn
    · rename_i hok
      rw [shows_kind_call] at hn
      rw [if_pos hok, page_full_call]; exact key hn
    · rename_i hok
      rw [shows_kind_call, shows_kind_call] at hn
      rw [if_neg hok, page_full_call, page_full_call]; exact key hn

/-- After a refresh, a list with a next page element goes with a count that
is a non-zero multiple of the page size. -/
theorem fsel_refr_next_page (env : Env) (fuel : Nat) (s t : Fsel)
    (h : fsel_refr env fuel s = .ok t) (hn : shows_kind t .NextPage = true) :
    page_full env t = true := by
  unfold fsel_refr at h
  dsimp only at h
  split at h
  · injection h with h
    subst h
    rw [shows_kind_drv_loop, shows_kind_call, shows_kind_new_list] at hn
    simp at hn
  · have h4 : shows_kind ((fsel_refr_new_list s).lv_list_add .Up "Up".toList false) .NextPage
        = false := by
      rw [shows_kind_lv_list_add_ne _ _ _ _ _ (by decide), shows_kind_new_list]
    split at h
    · injection h with h
      subst h
      rw [shows_kind_call, shows_kind_call, h4] at hn
      simp at hn
    · exact fsel_refr_dir_next_page env fuel _ t _ (by rw [shows_kind_call, h4]) h hn


theorem page_full_mod (env : Env) (s : Fsel) (h : page_full env s = true) :
    s.fsel_file_cnt % env.cfg.LV_APP_FSEL_PAGE_SIZE = 0 := by
  simp [page_full] at h
  exact h.2

theorem shows_kind_close (s : Fsel) (k : Kind) : shows_kind (lv_app_fsel_close s) k = false := by
  simp [shows_kind, lv_app_fsel_close]

/-! ### C7: trimming in open -/

theorem rtrim_concat (q : List Char) (c : Char) :
    rtrim (q ++ [c]) = if is_sep c = true then rtrim q else q ++ [c] := by
  unfold rtrim
  simp only [List.reverse_append, List.reverse_singleton, List.singleton_append,
    List.dropWhile_cons]
  split <;> simp

theorem ends_in_sep_concat (q : List Char) (c : Char) : ends_in_sep (q ++ [c]) = is_sep c := by
  simp [ends_in_sep]

theorem trim_loop_concat (cfg : Config) (fuel : Nat) (q : List Char) (c : Char) :
    trim_loop cfg (fuel + 1) (q ++ [c]) q.length =
      if is_sep c = true then trim_loop cfg fuel q (u16 (q.length + 65535))
      else .ok (q ++ [c]) := by
  conv_lhs => unfold trim_loop
  have hlt : q.length < (q ++ [c]).length := by simp
  rw [dif_pos hlt]
  have hget : (q ++ [c])[q.length] = c := by simp
  rw [hget]
  have htake : (q ++ [c]).take q.length = q := by simp
  rw [htake]
  by_cases hs : is_sep c = true
  · rw [if_pos hs, if_pos (by simpa [is_sep] using hs)]
  · rw [if_neg hs, if_neg (by simpa [is_sep] using hs)]

/-- The trimming loop of `open` on a string of at most `2 ^ 16` characters
that has a character other than a separator: it ends, with fuel beyond the
length, and leaves the string without its trailing separators. -/
theorem trim_loop_rtrim (cfg : Config) : ∀ (n : Nat) (path : List Char) (fuel : Nat),
    path.length = n → n ≤ 65536 → n < fuel → rtrim path ≠ [] →
    trim_loop cfg fuel path (u16 (path.length + 65535)) = .ok (rtrim path) := by
  intro n
  induction n with
  | zero =>
    intro path fuel hn _ _ hne
    have : path = [] := List.length_eq_zero.1 hn
    subst this
    simp [rtrim] at hne
  | succ n ih =>
    intro path fuel hn hle hfuel hne
    obtain ⟨q, c, rfl⟩ : ∃ q c, path = q ++ [c] := by
      rcases List.eq_nil_or_concat path with h | ⟨q, c, h⟩
      · subst h; simp at hn
      · exact ⟨q, c, by rw [h, List.concat_eq_append]⟩
    have hq : q.length = n := by simpa using hn
    obtain ⟨fuel, rfl⟩ : ∃ f, fuel = f + 1 := ⟨fuel - 1, by omega⟩
    have hi : u16 ((q ++ [c]).length + 65535) = q.length := by
      simp only [List.length_append, List.length_singleton, u16]; omega
    rw [hi, trim_loop_concat, rtrim_concat]
    by_cases hs : is_sep c = true
    · rw [if_pos hs, if_pos hs]
      rw [rtrim_concat, if_pos hs] at hne
      exact ih q fuel hq (by omega) (by omega) hne
    · rw [if_neg hs, if_neg hs]

/-- Whenever the trimming loop of `open` ends on a string of at most `2 ^ 16`
characters, it leaves the string without its trailing separators. -/
theorem trim_loop_ok (cfg : Config) : ∀ (n : Nat) (path : List Char) (fuel : Nat)
    (p : List Char), path.length = n → n ≤ 65536 →
    trim_loop cfg fuel path (u16 (path.length + 65535)) = .ok p →
    p = rtrim path ∧ ends_in_sep p = false := by
  intro n
  induction n with
  | zero =>
    intro path fuel p hn _ h
    have : path = [] := List.length_eq_zero.1 hn
    subst this
    cases fuel with
    | zero => simp [trim_loop] at h
    | succ fuel =>
      unfold trim_loop at h
      simp only [List.length_nil, u16, Nat.zero_add, Nat.reduceMod, Nat.not_lt_zero,
        dite_false] at h
      rw [if_neg (by decide)] at h
      split at h
      · simp at h
      · split at h
        · injection h with h
          subst h
          exact ⟨rfl, rfl⟩
        · simp at h
  | succ n ih =>
    intro path fuel p hn hle h
    obtain ⟨q, c, rfl⟩ : ∃ q c, path = q ++ [c] := by
      rcases List.eq_nil_or_concat path with h | ⟨q, c, h⟩
      · subst h; simp at hn
      · exact ⟨q, c, by rw [h, List.concat_eq_append]⟩
    have hq : q.length = n := by simpa using hn
    cases fuel with
    | zero => simp [trim_loop] at h
    | succ fuel =>
      have hi : u16 ((q ++ [c]).length + 65535) = q.length := by
        simp only [List.length_append, List.length_singleton, u16]; omega
      rw [hi, trim_loop_concat] at h
      rw [rtrim_concat]
      by_cases hs : is_sep c = true
      · rw [if_pos hs] at h ⊢
        exact ih q fuel p hq (by omega) h
      · rw [if_neg hs] at h ⊢
        injection h with h
        subst h
        exact ⟨rfl, by rw [ends_in_sep_concat]; simpa using hs⟩

/-- C7, evaluated: opening the path `/` (or the empty path) in a buffer of
128 bytes makes the trimming loop read `fsel_path[65535]`. -/
theorem trim_reads_outside_path_buffer :
    lv_app_fsel_open demo_env 30 ['/'] none 0 none Fsel.init = .error (.out_of_bounds 65535) ∧
    lv_app_fsel_open demo_env 30 [] none 0 none Fsel.init = .error (.out_of_bounds 65535) ∧
    ∃ s, lv_app_fsel_open demo_env 30 "/sd///".toList none 0 none Fsel.init = .ok s ∧
      s.fsel_path = "/sd".toList :=
  ⟨rfl, rfl, _, rfl, rfl⟩


/-! ### C8: the path and the separators -/

theorem ends_in_sep_append_cons (p : List Char) (c : Char) (l : List Char) :
    ends_in_sep (p ++ c :: l) = ends_in_sep (c :: l) := by
  have h : (c :: l).getLast? = some ((c :: l).getLast (by simp)) :=
    List.getLast?_eq_getLast _ _
  simp only [ends_in_sep, List.getLast?_append, h]
  rfl

theorem ends_in_sep_cons_cons (a c : Char) (l : List Char) :
    ends_in_sep (a :: c :: l) = ends_in_sep (c :: l) := by
  simp [ends_in_sep, List.getLast?_cons_cons]

theorem labels_ok_call (s : Fsel) (e : Event) : labels_ok (s.call e) ↔ labels_ok s := Iff.rfl

theorem labels_ok_calls (s : Fsel) (evs : List Event) : labels_ok (s.calls evs) ↔ labels_ok s :=
  Iff.rfl

theorem labels_ok_lv_list_add (s : Fsel) (k : Kind) (txt : List Char) (b : Bool)
    (hs : labels_ok s)
    (hk : (k = .Folder ∨ k = .File) → ends_in_sep ('/' :: txt) = false) :
    labels_ok (s.lv_list_add k txt b) := by
  unfold labels_ok Fsel.lv_list_add at *
  cases hl : s.fsel_list with
  | none => simp
  | some l =>
    rw [hl] at hs
    simp only [Option.map_some', Option.getD_some, List.mem_append, List.mem_singleton] at hs ⊢
    intro e he hkind
    rcases he with he | rfl
    · exact hs e he hkind
    · exact hk hkind

theorem labels_ok_add_elem (env : Env) (c : Char) (cs : List Char) (s : Fsel)
    (hs : labels_ok s) (hn : ends_in_sep (c :: cs) = false) :
    labels_ok (add_elem env c cs s) := by
  unfold add_elem
  split
  · rename_i hc
    subst hc
    exact labels_ok_lv_list_add s _ _ _ hs (fun _ => hn)
  · split
    · exact labels_ok_lv_list_add s _ _ _ hs (fun _ => by rw [ends_in_sep_cons_cons]; exact hn)
    · exact hs

theorem labels_ok_emit_loop (env : Env) : ∀ (rd : fs_readdir_t) (cur : ReadRes) (s : Fsel),
    (∀ n, cur = some n → ends_in_sep n = false) →
    (∀ n, some n ∈ rd → ends_in_sep n = false) →
    labels_ok s → labels_ok (emit_loop env cur rd s).1 := by
  intro rd
  induction rd with
  | nil =>
    intro cur s hcur _ hs
    rcases cur with _ | _ | ⟨c, cs⟩
    · simpa [emit_loop] using hs
    · simpa [emit_loop] using hs
    · simp only [emit_loop]
      have h1 : labels_ok ((add_elem env c cs s).call (.fs_readdir (some []))) :=
        labels_ok_add_elem env c cs s hs (hcur _ rfl)
      split
      · exact labels_ok_lv_list_add _ _ _ _ h1 (fun h => by rcases h with h | h <;> cases h)
      · exact h1
  | cons r rd ih =>
    intro cur s hcur hrd hs
    rcases cur with _ | _ | ⟨c, cs⟩
    · simpa [emit_loop] using hs
    · simpa [emit_loop] using hs
    · simp only [emit_loop]
      have h1 : labels_ok ((add_elem env c cs s).call (.fs_readdir r)) :=
        labels_ok_add_elem env c cs s hs (hcur _ rfl)
      split
      · exact labels_ok_lv_list_add _ _ _ _ h1 (fun h => by rcases h with h | h <;> cases h)
      · exact ih r _ (fun n hn => hrd n (by simp [hn]))
          (fun n hn => hrd n (by simp [hn])) h1

/-- What the first loop of the refresh hands to the second: a name that was
read from the directory (or the initial empty one) and a rest of it. -/
theorem skip_loop_done : ∀ (fuel : Nat) (s : Fsel) (rd : fs_readdir_t) (i : Nat)
    (fn : List Char) (s1 : Fsel) (rd1 : fs_readdir_t) (fn1 : List Char),
    skip_loop fuel s rd i fn = .ok (.done s1 rd1 fn1) →
    (fn1 = fn ∨ fn1 = [] ∨ some fn1 ∈ rd) ∧ (∀ x ∈ rd1, x ∈ rd) := by
  intro fuel
  induction fuel with
  | zero => intro s rd i fn s1 rd1 fn1 h; simp [skip_loop] at h
  | succ fuel ih =>
    intro s rd i fn s1 rd1 fn1 h
    unfold skip_loop at h
    split at h
    · cases rd with
      | nil =>
        simp only [fs_readdir] at h
        obtain ⟨h1, h2⟩ := ih _ _ _ _ _ _ _ h
        refine ⟨?_, h2⟩
        rcases h1 with h1 | h1 | h1
        · exact Or.inr (Or.inl h1)
        · exact Or.inr (Or.inl h1)
        · simp at h1
      | cons r rd =>
        simp only [fs_readdir] at h
        cases r with
        | none => simp at h
        | some n =>
          simp only at h
          obtain ⟨h1, h2⟩ := ih _ _ _ _ _ _ _ h
          refine ⟨?_, fun x hx => by simp [h2 x hx]⟩
          rcases h1 with h1 | h1 | h1
          · exact Or.inr (Or.inr (by simp [h1]))
          · exact Or.inr (Or.inl h1)
          · exact Or.inr (Or.inr (by simp [h1]))
    · injection h with h
      injection h with h1 h2 h3
      subst h2 h3
      exact ⟨Or.inl rfl, fun x hx => hx⟩


theorem labels_ok_drv_loop (filter : List Char) : ∀ (drv : List Char) (s : Fsel),
    labels_ok s → labels_ok (drv_loop filter drv s) := by
  intro drv
  induction drv with
  | nil => intro s hs; exact hs
  | cons c drv ih =>
    intro s hs
    simp only [drv_loop]
    exact ih _ (labels_ok_lv_list_add _ _ _ _ hs (fun h => by rcases h with h | h <;> cases h))

theorem labels_ok_new_list (s : Fsel) : labels_ok (fsel_refr_new_list s) := by
  obtain ⟨evs, h⟩ := fsel_refr_new_list_eq s
  rw [h]
  simp [labels_ok]

theorem labels_ok_fsel_refr_dir (env : Env) (fuel : Nat) (s t : Fsel) (rd : fs_readdir_t)
    (hrd : ∀ n, some n ∈ rd → ends_in_sep n = false) (hs : labels_ok s)
    (h : fsel_refr_dir env fuel s rd = .ok t) : labels_ok t := by
  unfold fsel_refr_dir at h
  have h6 : labels_ok (if s.fsel_file_cnt ≠ 0 then
      s.lv_list_add .PreviousPage "Previous page".toList false else s) := by
    split
    · exact labels_ok_lv_list_add _ _ _ _ hs (fun h => by rcases h with h | h <;> cases h)
    · exact hs
  dsimp only at h
  generalize (if s.fsel_file_cnt ≠ 0 then
      s.lv_list_add .PreviousPage "Previous page".toList false else s) = s6 at h h6
  split at h
  · simp at h
  · rename_i s7 hsk
    injection h with h
    subst h
    obtain ⟨evs, he⟩ := skip_loop_calls _ _ _ _ _ _ hsk
    simp only [Skip.state] at he
    rw [he]
    exact h6
  · rename_i s7 rd1 fn hsk
    injection h with h
    subst h
    obtain ⟨evs, he⟩ := skip_loop_calls _ _ _ _ _ _ hsk
    simp only [Skip.state] at he
    obtain ⟨hfn, hrd1⟩ := skip_loop_done _ _ _ _ _ _ _ _ hsk
    have h7 : labels_ok s7 := by rw [he]; exact h6
    have hfn' : ∀ n, some fn = some n → ends_in_sep n = false := by
      intro n hn
      injection hn with hn
      subst hn
      rcases hfn with h | h | h
      · subst h; rfl
      · subst h; rfl
      · exact hrd _ h
    have key := labels_ok_emit_loop env rd1 (some fn) s7 hfn'
      (fun n hn => hrd n (hrd1 _ hn)) h7
    split
    · exact key
    · exact key

/-- After a refresh of a directory whose names do not end in a separator,
no displayed file or folder text makes a path that ends in a separator. -/
theorem labels_ok_fsel_refr (env : Env) (fuel : Nat) (s t : Fsel)
    (hnames : ∀ p rd n, env.fs.fs_readdir_init p = some rd → some n ∈ rd →
      ends_in_sep n = false)
    (h : fsel_refr env fuel s = .ok t) : labels_ok t := by
  unfold fsel_refr at h
  dsimp only at h
  have h3 := labels_ok_new_list s
  split at h
  · injection h with h
    subst h
    exact labels_ok_drv_loop _ _ _ h3
  · have h4 : labels_ok ((fsel_refr_new_list s).lv_list_add .Up "Up".toList false) :=
      labels_ok_lv_list_add _ _ _ _ h3 (fun h => by rcases h with h | h <;> cases h)
    split at h
    · injection h with h
      subst h
      exact h4
    · rename_i rd hrd
      exact labels_ok_fsel_refr_dir env fuel _ t rd (fun n hn => hnames _ rd n hrd hn)
        ((labels_ok_call _ _).2 h4) h

theorem labels_ok_close (s : Fsel) : labels_ok (lv_app_fsel_close s) := by
  simp [labels_ok, lv_app_fsel_close]

theorem shows_label (s : Fsel) (k : Kind) (txt : List Char) (b : Bool)
    (h : shows s k txt b = true) : ∃ e ∈ s.fsel_list.getD [], e.kind = k ∧ e.label = txt := by
  simp only [shows, List.any_eq_true, Bool.and_eq_true, beq_iff_eq] at h
  obtain ⟨e, he, ⟨hk, hl⟩, _⟩ := h
  exact ⟨e, he, hk, hl⟩

theorem path_close (s : Fsel) : (lv_app_fsel_close s).fsel_path = s.fsel_path := by
  unfold lv_app_fsel_close
  split <;> rfl

theorem path_call_ok_action (s : Fsel) : (call_ok_action s).fsel_path = s.fsel_path := by
  unfold call_ok_action
  split <;> rfl

/-- C8 (as amended): the path never ends in a separator.  When the names
returned by the enumeration do not end in a separator, `fs_up` keeps paths
from ending in one, the capacity of the path buffer is within the range of
the 16 bit index, and the `sprintf` of the folder and file actions, which C
leaves undefined, leaves a string that ends in a slash and the label (the
strings `p/L` and `/L` both do), every state reached from `open` by offered
inputs has a path that does not end in `/` or `\`. -/
theorem path_never_ends_in_sep (env : Env) (fuel : Nat) (s : Fsel)
    (hcap : env.cfg.LV_APP_FSEL_PATH_MAX_LEN ≤ 65536)
    (hnames : ∀ p rd n, env.fs.fs_readdir_init p = some rd → some n ∈ rd →
      ends_in_sep n = false)
    (hlib : ∀ p L str, env.libc.sprintf_self p L = some str → ∃ q, str = q ++ '/' :: L)
    (hup : ∀ p, ends_in_sep p = false → ends_in_sep (env.fs.fs_up p) = false)
    (h : Reachable env fuel s) : ends_in_sep s.fsel_path = false := by
  suffices hinv : ends_in_sep s.fsel_path = false ∧ labels_ok s from hinv.1
  induction h with
  | opened path filter param ok_action s0 s hopen =>
    obtain ⟨p, s3, hlen, htrim, h3, e1, _, _, e4, _⟩ := lv_app_fsel_open_ok hopen
    obtain ⟨_, hp⟩ := trim_loop_ok env.cfg path.length path fuel p rfl (by omega) htrim
    have hss := same_session_fsel_refr _ _ _ _ h3
    refine ⟨by rw [e1, hss.1]; exact hp, ?_⟩
    have := labels_ok_fsel_refr env fuel _ s3 hnames h3
    unfold labels_ok at this ⊢
    rw [e4]; exact this
  | input s a s1 _ hoff hstep ih =>
    obtain ⟨hp, hl⟩ := ih
    cases a with
    | close =>
      simp only [step, fsel_close_action] at hstep
      injection hstep with hstep
      subst hstep
      exact ⟨by rw [path_close]; exact hp, labels_ok_close _⟩
    | up =>
      simp only [step, fsel_up_action] at hstep
      have hss := same_session_fsel_refr _ _ _ _ hstep
      exact ⟨by rw [hss.1]; exact hup _ hp, labels_ok_fsel_refr env fuel _ _ hnames hstep⟩
    | next =>
      simp only [step, fsel_next_action] at hstep
      have hss := same_session_fsel_refr _ _ _ _ hstep
      exact ⟨by rw [hss.1]; exact hp, labels_ok_fsel_refr env fuel _ _ hnames hstep⟩
    | prev =>
      simp only [step, fsel_prev_action] at hstep
      have hss := same_session_fsel_refr _ _ _ _ hstep
      exact ⟨by rw [hss.1]; exact hp, labels_ok_fsel_refr env fuel _ _ hnames hstep⟩
    | drv txt =>
      simp only [step, fsel_drv_action, sprintf_fsel_path] at hstep
      split at hstep
      · simp at hstep
      · rename_i s2 hs2
        split at hs2
        · simp at hs2
        · injection hs2 with hs2
          subst hs2
          have hss := same_session_fsel_refr _ _ _ _ hstep
          refine ⟨?_, labels_ok_fsel_refr env fuel _ _ hnames hstep⟩
          rw [hss.1]
          show ends_in_sep (txt ++ [':']) = false
          rw [ends_in_sep_append_cons]; rfl
    | drv_lpr txt =>
      simp only [step, fsel_drv_lpr_action, sprintf_fsel_path] at hstep
      split at hstep
      · simp at hstep
      · rename_i s2 hs2
        split at hs2
        · simp at hs2
        · injection hs2 with hs2
          subst hs2
          injection hstep with hstep
          subst hstep
          refine ⟨?_, labels_ok_close _⟩
          rw [path_close, path_call_ok_action]
          show ends_in_sep (txt ++ [':']) = false
          rw [ends_in_sep_append_cons]; rfl
    | folder txt =>
      obtain ⟨e, he, hk, hlab⟩ := shows_label _ _ _ _ hoff
      have hgood := hl e he (Or.inl hk)
      rw [hlab] at hgood
      simp only [step, fsel_folder_action] at hstep
      split at hstep
      · simp at hstep
      · rename_i s2 hs2
        obtain ⟨str, hstr, rfl, _⟩ := sprintf_fsel_path_self_ok hs2
        obtain ⟨q, rfl⟩ := hlib _ _ _ hstr
        have hss := same_session_fsel_refr _ _ _ _ hstep
        refine ⟨?_, labels_ok_fsel_refr env fuel _ _ hnames hstep⟩
        rw [hss.1]
        show ends_in_sep (q ++ '/' :: txt) = false
        rw [ends_in_sep_append_cons]; exact hgood
    | folder_lpr txt =>
      obtain ⟨e, he, hk, hlab⟩ := shows_label _ _ _ _ hoff
      have hgood := hl e he (Or.inl hk)
      rw [hlab] at hgood
      simp only [step, fsel_folder_lpr_action] at hstep
      split at hstep
      · simp at hstep
      · rename_i s2 hs2
        obtain ⟨str, hstr, rfl, _⟩ := sprintf_fsel_path_self_ok hs2
        obtain ⟨q, rfl⟩ := hlib _ _ _ hstr
        injection hstep with hstep
        subst hstep
        refine ⟨?_, labels_ok_close _⟩
        rw [path_close, path_call_ok_action]
        show ends_in_sep (q ++ '/' :: txt) = false
        rw [ends_in_sep_append_cons]; exact hgood
    | file txt =>
      obtain ⟨e, he, hk, hlab⟩ := shows_label _ _ _ _ hoff
      have hgood := hl e he (Or.inr hk)
      rw [hlab] at hgood
      simp only [step, fsel_file_action] at hstep
      split at hstep
      · simp at hstep
      · rename_i s2 hs2
        obtain ⟨str, hstr, rfl, _⟩ := sprintf_fsel_path_self_ok hs2
        obtain ⟨q, rfl⟩ := hlib _ _ _ hstr
        injection hstep with hstep
        subst hstep
        refine ⟨?_, labels_ok_close _⟩
        rw [path_close, path_call_ok_action]
        show ends_in_sep (q ++ '/' :: txt) = false
        rw [ends_in_sep_append_cons]; exact hgood


theorem ends_in_sep_reverse_dropWhile (l : List Char) :
    ends_in_sep ((l.dropWhile is_sep).reverse) = false := by
  unfold ends_in_sep
  rw [List.getLast?_reverse]
  have h := List.head?_dropWhile_not is_sep l
  cases hh : (l.dropWhile is_sep).head? with
  | none => rfl
  | some c =>
    rw [hh] at h
    simpa using h

theorem mixed_names_no_sep : ∀ n ∈ mixed_names, ends_in_sep n = false := by decide

/-- Witness of C8: after opening `/sd` and entering its folder `Photos`, on
the library that empties the destination first, the path is `/Photos`. -/
theorem path_never_ends_in_sep_witness :
    ∃ s1 s2, lv_app_fsel_open (listing_env 10 mixed_names) 10 "/sd".toList none 0 none
        Fsel.init = .ok s1 ∧
      offered s1 (.folder "Photos".toList) = true ∧
      step (listing_env 10 mixed_names) 10 s1 (.folder "Photos".toList) = .ok s2 ∧
      s2.fsel_path = "/Photos".toList ∧ ends_in_sep s2.fsel_path = false :=
  ⟨_, _, rfl, rfl, rfl, rfl,
    path_never_ends_in_sep (listing_env 10 mixed_names) 10 _ (by decide)
      (fun p rd n h hn => by
        simp only [listing_env, demo_fs] at h
        split at h
        · injection h with h
          subst h
          obtain ⟨m, hm, hmn⟩ := List.mem_map.1 hn
          injection hmn with hmn
          subst hmn
          exact mixed_names_no_sep m hm
        · simp at h)
      (fun p L str h => ⟨[], by
        simp only [listing_env, libc_cleared] at h
        injection h with h
        exact h.symm⟩)
      (fun p _ => ends_in_sep_reverse_dropWhile _)
      (Reachable.input _ (.folder "Photos".toList) _
        (Reachable.opened "/sd".toList none 0 none Fsel.init _ rfl) rfl rfl)⟩

/-- C8 as stated fails: in a directory that lists the folder name `/a\`, the
folder element `a\` is offered after `open`, and the descent into it leaves
a path that ends in the backslash: `/a\` on the library that empties the
destination first, `/sd/a\` on the library that formats in place. -/
theorem descent_into_name_ending_in_backslash :
    (∃ s1 s2, lv_app_fsel_open (listing_env 10 backslash_names) 10 "/sd".toList none 0 none
        Fsel.init = .ok s1 ∧
      offered s1 (.folder ['a', '\\']) = true ∧
      step (listing_env 10 backslash_names) 10 s1 (.folder ['a', '\\']) = .ok s2 ∧
      s2.fsel_path = ['/', 'a', '\\'] ∧ ends_in_sep s2.fsel_path = true) ∧
    (∃ s1 s2, lv_app_fsel_open (in_place_env 10 backslash_names) 10 "/sd".toList none 0 none
        Fsel.init = .ok s1 ∧
      offered s1 (.folder ['a', '\\']) = true ∧
      step (in_place_env 10 backslash_names) 10 s1 (.folder ['a', '\\']) = .ok s2 ∧
      s2.fsel_path = ['/', 's', 'd', '/', 'a', '\\'] ∧ ends_in_sep s2.fsel_path = true) :=
  ⟨⟨_, _, rfl, rfl, rfl, rfl, rfl⟩, _, _, rfl, rfl, rfl, rfl, rfl⟩

/-- The bound on the capacity in C8 is needed: in a buffer of 65538 bytes,
`open` on a path of 65537 characters that ends in a slash starts the
trimming at the 16 bit index `65536 mod 2 ^ 16 = 0`, finds the first
character and leaves the path with its slash. -/
theorem trim_misses_separator_of_long_path :
    wide_path.length < wide_env.cfg.LV_APP_FSEL_PATH_MAX_LEN ∧
    ∃ s, lv_app_fsel_open wide_env 2 wide_path none 0 none Fsel.init = .ok s ∧
      s.fsel_path = wide_path ∧ ends_in_sep s.fsel_path = true := by
  have hlen : wide_path.length = 65537 := by
    unfold wide_path
    rw [List.length_append, List.length_cons, List.length_replicate]
    rfl
  have hend : ends_in_sep wide_path = true := by
    unfold wide_path
    rw [ends_in_sep_concat]; rfl
  have htrim : trim_loop wide_env.cfg 2 wide_path (u16 (wide_path.length + 65535))
      = .ok wide_path := by
    rw [hlen]
    have hi : u16 (65537 + 65535) = 0 := by decide
    rw [hi]
    unfold trim_loop
    have h0 : 0 < wide_path.length := by rw [hlen]; decide
    rw [dif_pos h0]
    have hg : wide_path[0] = 'a' := rfl
    rw [hg, if_neg (by decide)]
  refine ⟨by rw [hlen]; decide, ?_⟩
  unfold lv_app_fsel_open
  rw [if_neg (by rw [hlen]; decide), htrim]
  exact ⟨_, rfl, rfl, hend⟩

/-- The condition on the library in C8 is needed: C defines no result for
the `sprintf` of the descent, and on a library that stops after the slash
the descent from `/sd` into `Photos` leaves the path `/sd/`. -/
theorem descent_on_library_that_stops_at_slash :
    ∃ s1 s2, lv_app_fsel_open cut_env 10 "/sd".toList none 0 none Fsel.init = .ok s1 ∧
      offered s1 (.folder "Photos".toList) = true ∧
      step cut_env 10 s1 (.folder "Photos".toList) = .ok s2 ∧
      s2.fsel_path = "/sd/".toList ∧ ends_in_sep s2.fsel_path = true :=
  ⟨_, _, rfl, rfl, rfl, rfl, rfl⟩

/-! ### C9 and C10: failures of the enumeration -/

theorem notices_append (a b : List Event) : notices (a ++ b) = notices a ++ notices b := by
  simp [notices, List.filterMap_append]

/-- C9 (as amended): when `fs_readdir_init` fails on a non-empty path, the
refresh makes exactly one notice and the new list holds the Up element and
nothing else; the count is left as it is. -/
theorem open_directory_failure (env : Env) (fuel : Nat) (s : Fsel)
    (hpath : s.fsel_path ≠ [])
    (hfail : env.fs.fs_readdir_init s.fsel_path = none) :
    ∃ s' evs, fsel_refr env fuel s = .ok s' ∧ s'.log = s.log ++ evs ∧
      notices evs = [.cannot_read] ∧
      s'.fsel_list = some [⟨.Up, "Up".toList, false⟩] ∧ shown s' = [] ∧
      s'.fsel_file_cnt = s.fsel_file_cnt := by
  obtain ⟨evs0, h0⟩ := fsel_refr_new_list_eq s
  have hev : notices evs0 = [] := by
    unfold fsel_refr_new_list at h0
    have hlog := congrArg Fsel.log h0
    by_cases hl : s.fsel_list.isSome = true
    · simp [hl, Fsel.call, Fsel.calls] at hlog
      rw [← hlog]; rfl
    · simp [hl, Fsel.call, Fsel.calls] at hlog
      rw [← hlog]; rfl
  have hr : fsel_refr env fuel s = .ok { s with
      fsel_list := some [⟨.Up, "Up".toList, false⟩]
      log := s.log ++ (evs0 ++
        [.fs_readdir_init s.fsel_path false, .lv_app_notice_add .cannot_read]) } := by
    unfold fsel_refr
    rw [h0]
    simp only [Fsel.calls, Fsel.call, Fsel.lv_list_add, if_neg hpath, hfail]
    simp
  refine ⟨_, _, hr, rfl, ?_, rfl, rfl, rfl⟩
  rw [notices_append, hev]; rfl


/-- Witness of C9: refresh at `/sd` on a file system that cannot open it. -/
theorem open_directory_failure_witness :
    ∃ s' evs, fsel_refr failing_open_env 10 (at_sd [] 0) = .ok s' ∧
      s'.log = (at_sd [] 0).log ++ evs ∧ notices evs = [.cannot_read] ∧
      s'.fsel_list = some [⟨.Up, "Up".toList, false⟩] ∧ shown s' = [] ∧
      s'.fsel_file_cnt = (at_sd [] 0).fsel_file_cnt :=
  open_directory_failure failing_open_env 10 (at_sd [] 0) (by decide) rfl

/-- C9 as stated fails: after a failed `fs_readdir_init` the displayed list
is not empty, it holds the Up element. -/
theorem open_failure_still_lists_up :
    ∃ s', fsel_refr failing_open_env 10 (at_sd [] 0) = .ok s' ∧
      s'.fsel_list = some [⟨.Up, "Up".toList, false⟩] ∧ s'.fsel_list ≠ some [] :=
  ⟨_, rfl, rfl, by decide⟩

/-- C10, evaluated: when the first `fs_readdir` fails, the refresh returns
from inside the loop over the previous pages; the directory was opened and
`fs_readdir_close` is not called. -/
theorem skip_read_failure_leaves_directory_open :
    ∃ s', fsel_refr failing_read_env 10 (at_sd [] 0) = .ok s' ∧
      s'.log = [.lv_win_set_title "/sd".toList, .lv_list_create,
        .fs_readdir_init "/sd".toList true, .fs_readdir none,
        .lv_app_notice_add .cannot_read] ∧
      Event.fs_readdir_close ∉ s'.log :=
  ⟨_, rfl, rfl, by decide⟩

/-! ### C11: the arithmetic of Previous -/

theorem prev_cnt_lt_u16 (cfg : Config) (o : Nat) (ho : o < 65536) :
    prev_cnt cfg o =
      if o ≤ 2 * cfg.LV_APP_FSEL_PAGE_SIZE then 0
      else if o % cfg.LV_APP_FSEL_PAGE_SIZE = 0 then o - 2 * cfg.LV_APP_FSEL_PAGE_SIZE
      else (o / cfg.LV_APP_FSEL_PAGE_SIZE - 1) * cfg.LV_APP_FSEL_PAGE_SIZE := by
  unfold prev_cnt u16
  split
  · rfl
  · split
    · exact Nat.mod_eq_of_lt (by omega)
    · refine Nat.mod_eq_of_lt (lt_of_le_of_lt ?_ ho)
      exact le_trans (Nat.mul_le_mul_right _ (Nat.sub_le _ _)) (Nat.div_mul_le_self _ _)

/-- The count set by `fsel_prev_action` is a multiple of the page size. -/
theorem prev_cnt_mod (cfg : Config) (o : Nat) (ho : o < 65536) :
    prev_cnt cfg o % cfg.LV_APP_FSEL_PAGE_SIZE = 0 := by
  rw [prev_cnt_lt_u16 cfg o ho]
  split
  · exact Nat.zero_mod _
  · split
    · rename_i h1 h2
      obtain ⟨k, hk⟩ := Nat.dvd_of_mod_eq_zero h2
      have : o - 2 * cfg.LV_APP_FSEL_PAGE_SIZE = cfg.LV_APP_FSEL_PAGE_SIZE * (k - 2) := by
        rw [Nat.mul_sub, ← hk, Nat.mul_comm]
      rw [this]
      exact Nat.mul_mod_right _ _
    · exact Nat.mul_mod_left _ _

/-- C11: the arithmetic of Previous.  For a page size `P ≥ 1` and a count `o`
below `2 ^ 16`, `fsel_prev_action` runs the refresh on the count `r` that is
0 when `o ≤ 2 P`, `o - 2 P` when `P` divides `o`, and `(⌊o / P⌋ - 1) P`
otherwise, these differences being taken in the integers (no subtraction
goes below zero); `r` is a multiple of `P` and, for `o > 0`, smaller than
`o`. -/
theorem prev_offset_arithmetic (env : Env) (fuel : Nat) (s : Fsel)
    (hP : 1 ≤ env.cfg.LV_APP_FSEL_PAGE_SIZE) (ho : s.fsel_file_cnt < 65536) :
    ∃ r : Nat,
      fsel_prev_action env fuel s = fsel_refr env fuel { s with fsel_file_cnt := r } ∧
      (r : Int) =
        (if s.fsel_file_cnt ≤ 2 * env.cfg.LV_APP_FSEL_PAGE_SIZE then 0
         else if env.cfg.LV_APP_FSEL_PAGE_SIZE ∣ s.fsel_file_cnt then
           (s.fsel_file_cnt : Int) - 2 * (env.cfg.LV_APP_FSEL_PAGE_SIZE : Int)
         else (((s.fsel_file_cnt / env.cfg.LV_APP_FSEL_PAGE_SIZE : Nat) : Int) - 1)
           * (env.cfg.LV_APP_FSEL_PAGE_SIZE : Int)) ∧
      r % env.cfg.LV_APP_FSEL_PAGE_SIZE = 0 ∧
      (0 < s.fsel_file_cnt → r < s.fsel_file_cnt) := by
  refine ⟨prev_cnt env.cfg s.fsel_file_cnt, rfl, ?_, prev_cnt_mod env.cfg _ ho, ?_⟩
  · rw [prev_cnt_lt_u16 env.cfg _ ho]
    by_cases h1 : s.fsel_file_cnt ≤ 2 * env.cfg.LV_APP_FSEL_PAGE_SIZE
    · simp [h1]
    · rw [if_neg h1, if_neg h1]
      by_cases h2 : s.fsel_file_cnt % env.cfg.LV_APP_FSEL_PAGE_SIZE = 0
      · rw [if_pos h2, if_pos (Nat.dvd_of_mod_eq_zero h2)]
        push_cast [Nat.cast_sub (le_of_lt (not_le.1 h1))]
        ring
      · rw [if_neg h2, if_neg (fun h => h2 (Nat.mod_eq_zero_of_dvd h))]
        have hq : 1 ≤ s.fsel_file_cnt / env.cfg.LV_APP_FSEL_PAGE_SIZE := by
          rw [Nat.le_div_iff_mul_le (by omega)]
          omega
        push_cast [Nat.cast_sub hq]
        ring
  · intro hpos
    rw [prev_cnt_lt_u16 env.cfg _ ho]
    split
    · exact hpos
    · split
      · omega
      · rename_i h1 h2
        have hq : 1 ≤ s.fsel_file_cnt / env.cfg.LV_APP_FSEL_PAGE_SIZE := by
          rw [Nat.le_div_iff_mul_le (by omega)]
          omega
        have h3 := Nat.div_mul_le_self s.fsel_file_cnt env.cfg.LV_APP_FSEL_PAGE_SIZE
        have h4 : (s.fsel_file_cnt / env.cfg.LV_APP_FSEL_PAGE_SIZE - 1)
            * env.cfg.LV_APP_FSEL_PAGE_SIZE + env.cfg.LV_APP_FSEL_PAGE_SIZE
            = s.fsel_file_cnt / env.cfg.LV_APP_FSEL_PAGE_SIZE
              * env.cfg.LV_APP_FSEL_PAGE_SIZE := by
          rw [← Nat.succ_mul]
          congr 1
          omega
        omega

/-- Witness of C11: at page size 10, Previous from the count 25 refreshes at
the count 10. -/
theorem prev_offset_arithmetic_witness :
    ∃ r : Nat,
      fsel_prev_action demo_env 30 (at_sd [] 25)
        = fsel_refr demo_env 30 { at_sd [] 25 with fsel_file_cnt := r } ∧
      (r : Int) = 10 ∧ r % 10 = 0 ∧ (0 < 25 → r < 25) :=
  (prev_offset_arithmetic demo_env 30 (at_sd [] 25) (by decide) (by decide)).imp
    (fun _ h => ⟨h.1, h.2.1.trans (by decide), h.2.2.1, h.2.2.2⟩)

/-! ### C12: folder marker and labels -/

theorem fsel_list_add_elem (env : Env) (c : Char) (cs : List Char) (s : Fsel) :
    (add_elem env c cs s).fsel_list = s.fsel_list.map (fun l => l ++
      (if matching env.fs s.fsel_filter (c :: cs) = true then
        [entry_of s.fsel_filter (c :: cs)] else [])) := by
  rw [add_elem_eq]
  split
  · rfl
  · cases s.fsel_list <;> simp

theorem option_map_append (o : Option (List Entry)) (a b : List Entry) :
    (o.map (fun l => l ++ a)).map (fun l => l ++ b) = o.map (fun l => l ++ (a ++ b)) := by
  cases o <;> simp

/-- The display loop only appends to the list. -/
theorem emit_loop_appends (env : Env) : ∀ (rd : fs_readdir_t) (cur : ReadRes) (s : Fsel),
    ∃ rest, (emit_loop env cur rd s).1.fsel_list = s.fsel_list.map (fun l => l ++ rest) := by
  intro rd
  induction rd with
  | nil =>
    intro cur s
    rcases cur with _ | _ | ⟨c, cs⟩
    · exact ⟨[], by cases h : s.fsel_list <;> simp [emit_loop, h]⟩
    · exact ⟨[], by cases h : s.fsel_list <;> simp [emit_loop, h]⟩
    · simp only [emit_loop]
      split
      · exact ⟨_, by
          simp only [Fsel.lv_list_add, Fsel.call, fsel_list_add_elem, option_map_append]
          rfl⟩
      · exact ⟨_, by simp only [Fsel.call, fsel_list_add_elem]; rfl⟩
  | cons r rd ih =>
    intro cur s
    rcases cur with _ | _ | ⟨c, cs⟩
    · exact ⟨[], by cases h : s.fsel_list <;> simp [emit_loop, h]⟩
    · exact ⟨[], by cases h : s.fsel_list <;> simp [emit_loop, h]⟩
    · simp only [emit_loop]
      split
      · exact ⟨_, by
          simp only [Fsel.lv_list_add, Fsel.call, fsel_list_add_elem, option_map_append]
          rfl⟩
      · obtain ⟨rest, h⟩ := ih r ((add_elem env c cs s).call (.fs_readdir r))
        exact ⟨_, by
          rw [h]
          simp only [Fsel.call, fsel_list_add_elem, option_map_append]
          rfl⟩

/-- C12: folder marker and labels.  When the display loop is at a non-empty
name `n`, the element it adds next to the list is, for `n` beginning with a
slash, a folder whose text is `n` without its first character, with the long
press action exactly under a folder filter; for any other `n` that passes the
filter, a file whose text is `n`; and nothing for a file that does not pass. -/
theorem folder_marker_and_labels (env : Env) (n : List Char) (rd : fs_readdir_t) (s : Fsel)
    (hn : n ≠ []) :
    ∃ rest, (emit_loop env (some n) rd s).1.fsel_list = s.fsel_list.map (fun l => l ++
      ((if n.head? = some '/' then [⟨.Folder, n.tail, folder_filter s.fsel_filter⟩]
        else if s.fsel_filter = [] ∨
            (folder_filter s.fsel_filter = false ∧ env.fs.fs_get_ext n = s.fsel_filter) then
          [⟨.File, n, false⟩]
        else []) ++ rest)) := by
  obtain ⟨c, cs, rfl⟩ : ∃ c cs, n = c :: cs := by
    cases n with
    | nil => exact absurd rfl hn
    | cons c cs => exact ⟨c, cs, rfl⟩
  have hbody : (if (c :: cs).head? = some '/' then
        [(⟨.Folder, (c :: cs).tail, folder_filter s.fsel_filter⟩ : Entry)]
      else if s.fsel_filter = [] ∨
          (folder_filter s.fsel_filter = false ∧ env.fs.fs_get_ext (c :: cs) = s.fsel_filter) then
        [⟨.File, c :: cs, false⟩]
      else []) =
      (if matching env.fs s.fsel_filter (c :: cs) = true then
        [entry_of s.fsel_filter (c :: cs)] else []) := by
    unfold matching entry_of is_folder
    by_cases hc : c = '/'
    · simp [hc]
    · by_cases hf : s.fsel_filter = []
      · simp [hc, hf]
      · by_cases hff : folder_filter s.fsel_filter = true
        · simp [hc, hf, hff]
        · by_cases he : env.fs.fs_get_ext (c :: cs) = s.fsel_filter
          · simp [hc, hf, hff, he]
          · simp [hc, hf, hff, he]
  rw [hbody]
  have key : ∀ t : Fsel, t.fsel_list = (add_elem env c cs s).fsel_list →
      ∀ rest, t.fsel_list.map (fun l => l ++ rest) = s.fsel_list.map (fun l => l ++
        ((if matching env.fs s.fsel_filter (c :: cs) = true then
          [entry_of s.fsel_filter (c :: cs)] else []) ++ rest)) := by
    intro t ht rest
    rw [ht, fsel_list_add_elem, option_map_append]
  cases rd with
  | nil =>
    simp only [emit_loop]
    split
    · exact ⟨[⟨.NextPage, "Next page".toList, false⟩], by
        simp only [Fsel.lv_list_add]
        exact key _ rfl _⟩
    · refine ⟨[], ?_⟩
      have := key ((add_elem env c cs s).call (.fs_readdir (some []))) rfl []
      simpa using this
  | cons r rd =>
    simp only [emit_loop]
    split
    · exact ⟨[⟨.NextPage, "Next page".toList, false⟩], by
        simp only [Fsel.lv_list_add]
        exact key _ rfl _⟩
    · obtain ⟨rest, h⟩ := emit_loop_appends env rd r ((add_elem env c cs s).call (.fs_readdir r))
      exact ⟨rest, by rw [h]; exact key _ rfl _⟩

/-- Witness of C12: on the names `/Photos` and `song.wav` under the filter
`wav`, the loop adds the folder `Photos` and then the file `song.wav`. -/
theorem folder_marker_and_labels_witness :
    (∃ rest, (emit_loop (listing_env 10 mixed_names) (some "/Photos".toList)
        [some "song.wav".toList] { at_sd "wav".toList 0 with fsel_list := some [] }).1.fsel_list
      = some ([⟨.Folder, "Photos".toList, false⟩] ++ rest)) ∧
    (∃ rest, (emit_loop (listing_env 10 mixed_names) (some "song.wav".toList)
        [] { at_sd "wav".toList 0 with fsel_list := some [] }).1.fsel_list
      = some ([⟨.File, "song.wav".toList, false⟩] ++ rest)) :=
  ⟨(folder_marker_and_labels (listing_env 10 mixed_names) "/Photos".toList
      [some "song.wav".toList] { at_sd "wav".toList 0 with fsel_list := some [] }
      (by decide)).imp (fun _ h => h.trans (by rfl)),
   (folder_marker_and_labels (listing_env 10 mixed_names) "song.wav".toList
      [] { at_sd "wav".toList 0 with fsel_list := some [] }
      (by decide)).imp (fun _ h => h.trans (by rfl))⟩

/-! ### C13: path changes and paging -/

/-- Path changes and paging on every library.  When the `sprintf` of the
folder descent leaves the string `str` and it fits (and the two characters of
`d:` fit), the folder descent runs the refresh on the path `str` with the
count 0, the drive descent on `d:` with the count 0, Up on `fs_up p` with the
count 0, whatever the count was; Next runs the refresh on the unchanged
state.  After each of them the path is the one the refresh started with, and
after Next and Previous it is the old path. -/
theorem path_changes_restart_paging (env : Env) (fuel : Nat) (s : Fsel) (L str : List Char)
    (d : Char) (hstr : env.libc.sprintf_self s.fsel_path L = some str)
    (hfitL : str.length < env.cfg.LV_APP_FSEL_PATH_MAX_LEN)
    (hfitd : 2 < env.cfg.LV_APP_FSEL_PATH_MAX_LEN) :
    fsel_folder_action env fuel L s
      = fsel_refr env fuel { s with fsel_path := str, fsel_file_cnt := 0 } ∧
    fsel_drv_action env fuel [d] s
      = fsel_refr env fuel { s with fsel_path := [d, ':'], fsel_file_cnt := 0 } ∧
    fsel_up_action env fuel s
      = fsel_refr env fuel { s.call (.fs_up s.fsel_path) with
          fsel_path := env.fs.fs_up s.fsel_path, fsel_file_cnt := 0 } ∧
    fsel_next_action env fuel s = fsel_refr env fuel s ∧
    (∀ t, fsel_folder_action env fuel L s = .ok t → t.fsel_path = str) ∧
    (∀ t, fsel_drv_action env fuel [d] s = .ok t → t.fsel_path = [d, ':']) ∧
    (∀ t, fsel_up_action env fuel s = .ok t → t.fsel_path = env.fs.fs_up s.fsel_path) ∧
    (∀ t, fsel_next_action env fuel s = .ok t → t.fsel_path = s.fsel_path) ∧
    (∀ t, fsel_prev_action env fuel s = .ok t → t.fsel_path = s.fsel_path) := by
  have hL : ¬ env.cfg.LV_APP_FSEL_PATH_MAX_LEN ≤ str.length := by omega
  have hd : ¬ env.cfg.LV_APP_FSEL_PATH_MAX_LEN ≤ ([d] ++ [':']).length := by
    simp only [List.length_append, List.length_cons, List.length_nil]; omega
  have e1 : fsel_folder_action env fuel L s
      = fsel_refr env fuel { s with fsel_path := str, fsel_file_cnt := 0 } := by
    simp only [fsel_folder_action, sprintf_fsel_path_self, hstr, sprintf_fsel_path, if_neg hL]
  have e2 : fsel_drv_action env fuel [d] s
      = fsel_refr env fuel { s with fsel_path := [d, ':'], fsel_file_cnt := 0 } := by
    simp only [fsel_drv_action, sprintf_fsel_path, if_neg hd]
    rfl
  refine ⟨e1, e2, rfl, rfl, ?_, ?_, ?_, ?_, ?_⟩
  · intro t ht
    rw [e1] at ht
    exact (same_session_fsel_refr _ _ _ _ ht).1
  · intro t ht
    rw [e2] at ht
    exact (same_session_fsel_refr _ _ _ _ ht).1
  · intro t ht
    exact (same_session_fsel_refr _ _ _ _ ht).1
  · intro t ht
    exact (same_session_fsel_refr _ _ _ _ ht).1
  · intro t ht
    exact (same_session_fsel_refr _ _ _ _ ht).1

/-- C13, evaluated: the folder descent loses the current path on a library
that empties the destination of `sprintf` first.  After `open` on `/sd`, whose
directory lists the folder `Photos`, the release on that folder leaves the
path `/Photos`, not `/sd/Photos`, and the refresh (which starts at the count
0) asks the file system for `/Photos`; on a library of which no result is
known the descent leaves the defined behaviour. -/
theorem folder_descent_loses_current_path :
    (∃ s1 s2, lv_app_fsel_open (listing_env 10 mixed_names) 10 "/sd".toList none 0 none
        Fsel.init = .ok s1 ∧
      s1.fsel_path = "/sd".toList ∧ offered s1 (.folder "Photos".toList) = true ∧
      step (listing_env 10 mixed_names) 10 s1 (.folder "Photos".toList) = .ok s2 ∧
      s2.fsel_path = "/Photos".toList ∧ s2.fsel_path ≠ s1.fsel_path ++ "/Photos".toList ∧
      Event.fs_readdir_init "/Photos".toList false ∈ s2.log ∧
      (∃ s0, refr_start (listing_env 10 mixed_names) s1 (.folder "Photos".toList) = some s0 ∧
        s0.fsel_path = "/Photos".toList ∧ s0.fsel_file_cnt = 0)) ∧
    (∃ s1, lv_app_fsel_open unknown_env 10 "/sd".toList none 0 none Fsel.init = .ok s1 ∧
      offered s1 (.folder "Photos".toList) = true ∧
      step unknown_env 10 s1 (.folder "Photos".toList) = .error .sprintf_overlap) :=
  ⟨⟨_, _, rfl, rfl, rfl, rfl, rfl, by decide, by decide, _, rfl, rfl, rfl⟩, _, rfl, rfl, rfl⟩

set_option maxRecDepth 8192 in
/-- No length is checked either: on a library that formats in place, from a
path of 100 characters the descent into a folder whose text has 40 characters
writes 142 bytes into the 128 bytes of `fsel_path`. -/
theorem descent_overflows_path_buffer :
    long_path.length < (in_place_env 10 demo_names).cfg.LV_APP_FSEL_PATH_MAX_LEN ∧
    fsel_folder_action (in_place_env 10 demo_names) 30 long_label (picking_at long_path none)
      = .error (.path_overflow 141) :=
  ⟨by decide, rfl⟩

/-! ### C14: the page of the drives -/

theorem drv_loop_eq (filter : List Char) : ∀ (drv : List Char) (s : Fsel) (l : List Entry),
    s.fsel_list = some l →
    drv_loop filter drv s = { s with
      fsel_list := some (l ++ drv.map (fun c => ⟨.Drive, [c], folder_filter filter⟩)) } := by
  intro drv
  induction drv with
  | nil =>
    intro s l hl
    obtain ⟨f, p, cnt, w, li, pa, ok, ffc, lg⟩ := s
    simp only at hl
    subst hl
    simp [drv_loop]
  | cons c drv ih =>
    intro s l hl
    simp only [drv_loop]
    rw [ih _ (l ++ [⟨.Drive, [c], folder_filter filter⟩]) (by simp [Fsel.lv_list_add, hl])]
    simp [Fsel.lv_list_add]

/-- C14: the page of the drives.  At the empty path the refresh returns with
a list of exactly one drive element per letter stored by `fs_get_letters`,
in order, each with the letter as its text and with the long press action
exactly under a folder filter; no other element is on the list whatever the
count is, `fs_readdir_init` is not called, and the count is unchanged. -/
theorem drive_root_page (env : Env) (fuel : Nat) (s : Fsel) (hpath : s.fsel_path = []) :
    ∃ t evs, fsel_refr env fuel s = .ok t ∧
      t.fsel_list = some (env.fs.fs_get_letters.map
        (fun c => ⟨.Drive, [c], folder_filter s.fsel_filter⟩)) ∧
      (∀ e ∈ t.fsel_list.getD [], e.kind = .Drive) ∧
      t.fsel_file_cnt = s.fsel_file_cnt ∧
      t.log = s.log ++ evs ∧ (∀ p ok, Event.fs_readdir_init p ok ∉ evs) := by
  obtain ⟨evs0, h0⟩ := fsel_refr_new_list_eq s
  have hev : ∀ p ok, Event.fs_readdir_init p ok ∉ evs0 := by
    intro p ok
    unfold fsel_refr_new_list at h0
    have hlog := congrArg Fsel.log h0
    by_cases hl : s.fsel_list.isSome = true
    · simp [hl, Fsel.call, Fsel.calls] at hlog
      rw [← hlog]; simp
    · simp [hl, Fsel.call, Fsel.calls] at hlog
      rw [← hlog]; simp
  have hr : fsel_refr env fuel s = .ok { s with
      fsel_list := some (env.fs.fs_get_letters.map
        (fun c => ⟨.Drive, [c], folder_filter s.fsel_filter⟩))
      log := s.log ++ (evs0 ++ [.fs_get_letters]) } := by
    unfold fsel_refr
    rw [h0]
    simp only [Fsel.calls, Fsel.call, hpath, if_true]
    rw [drv_loop_eq _ _ _ [] rfl]
    simp
  refine ⟨_, _, hr, rfl, ?_, rfl, rfl, ?_⟩
  · intro e he
    simp only [Option.getD_some, List.mem_map] at he
    obtain ⟨c, _, rfl⟩ := he
    rfl
  · intro p ok hmem
    rcases List.mem_append.1 hmem with h | h
    · exact hev p ok h
    · simp at h

/-- Witness of C14: at the empty path and the count 20, on a file system
with the drive `S` and under the folder filter, the list is the drive `S` with
its long press action. -/
theorem drive_root_page_witness :
    ∃ t evs, fsel_refr demo_env 30 { at_sd ['/'] 20 with fsel_path := [] } = .ok t ∧
      t.fsel_list = some [⟨.Drive, ['S'], true⟩] ∧
      (∀ e ∈ t.fsel_list.getD [], e.kind = .Drive) ∧
      t.fsel_file_cnt = 20 ∧
      t.log = evs ∧ (∀ p ok, Event.fs_readdir_init p ok ∉ evs) :=
  drive_root_page demo_env 30 { at_sd ['/'] 20 with fsel_path := [] } rfl

/-! ### C15 and C16: close, and the next page element -/

/-- C15: close is idempotent.  A second close changes nothing, not even the
log (nothing is deleted); after a close both object pointers are `NULL`, and
path, filter, count, callback and parameter are those before it.  The close
button runs the same function. -/
theorem close_idempotent (s : Fsel) :
    lv_app_fsel_close (lv_app_fsel_close s) = lv_app_fsel_close s ∧
    (lv_app_fsel_close (lv_app_fsel_close s)).log = (lv_app_fsel_close s).log ∧
    (lv_app_fsel_close s).fsel_win = false ∧ (lv_app_fsel_close s).fsel_list = none ∧
    (lv_app_fsel_close s).fsel_path = s.fsel_path ∧
    (lv_app_fsel_close s).fsel_filter = s.fsel_filter ∧
    (lv_app_fsel_close s).fsel_file_cnt = s.fsel_file_cnt ∧
    (lv_app_fsel_close s).fsel_ok_action = s.fsel_ok_action ∧
    (lv_app_fsel_close s).fsel_param = s.fsel_param ∧
    fsel_close_action s = lv_app_fsel_close s := by
  cases hw : s.fsel_win <;> simp [lv_app_fsel_close, fsel_close_action, Fsel.call, hw]

/-- C16, evaluated: page size 2, filter `wav`, directory `a.wav, b.wav, x.txt,
c.wav`.  The first page shows `a.wav` and `b.wav` and leaves the count 2, a
multiple of the page size.  The refresh run by Next reads over three names,
meets the hidden `x.txt`, and adds the next page element at once: the page
shows no file and still offers Next; one more Next gives the same page, and
`c.wav` is never shown. -/
theorem next_page_on_empty_page :
    ∃ s1 s2 s3,
      session (listing_env 2 wav_names) 10 "/sd".toList (some "wav".toList) 0 none [] = .ok s1 ∧
      shown s1 = [⟨.File, "a.wav".toList, false⟩, ⟨.File, "b.wav".toList, false⟩] ∧
      s1.fsel_file_cnt = 2 ∧ offered s1 .next = true ∧
      fsel_next_action (listing_env 2 wav_names) 10 s1 = .ok s2 ∧
      shown s2 = [] ∧ shows_kind s2 .NextPage = true ∧ s2.fsel_file_cnt = 2 ∧
      fsel_next_action (listing_env 2 wav_names) 10 s2 = .ok s3 ∧
      shown s3 = [] ∧ shows_kind s3 .NextPage = true :=
  ⟨_, _, _, rfl, rfl, rfl, rfl, rfl, rfl, rfl, rfl, rfl, rfl, rfl⟩

/-! ### C17 and C18: the account of a refresh -/

theorem counts_from_refl (env : Env) (s : Fsel) (hc : s.fsel_file_cnt < 65536) :
    counts_from env s s :=
  ⟨0, rfl, by simp [Nat.mod_eq_of_lt hc], fun _ _ => Nat.zero_le _⟩

theorem shown_call (s : Fsel) (e : Event) : shown (s.call e) = shown s := rfl

theorem shown_calls (s : Fsel) (evs : List Event) : shown (s.calls evs) = shown s := rfl

theorem shown_lv_list_add_other (s : Fsel) (k : Kind) (txt : List Char) (b : Bool)
    (h1 : k ≠ .Folder) (h2 : k ≠ .File) : shown (s.lv_list_add k txt b) = shown s := by
  unfold shown Fsel.lv_list_add
  cases s.fsel_list with
  | none => rfl
  | some l => simp [List.filter_append, h1, h2]

/-- What the body of the display loop does to the list and the count: a
matching name adds one file or folder and counts it, any other name changes
nothing. -/
theorem add_elem_cases (env : Env) (c : Char) (cs : List Char) (s : Fsel) (l : List Entry)
    (hl : s.fsel_list = some l) :
    ((shown (add_elem env c cs s)).length = (shown s).length + 1 ∧
      (add_elem env c cs s).fsel_file_cnt = u16 (s.fsel_file_cnt + 1) ∧
      ∃ l1, (add_elem env c cs s).fsel_list = some l1) ∨
    add_elem env c cs s = s := by
  rw [add_elem_eq]
  by_cases hm : matching env.fs s.fsel_filter (c :: cs) = true
  · left
    rw [if_pos hm]
    refine ⟨?_, rfl, ⟨l ++ [entry_of s.fsel_filter (c :: cs)], by simp [hl]⟩⟩
    have hk := entry_of_kind s.fsel_filter (c :: cs)
    simp only [shown, hl, Option.map_some', Option.getD_some, List.filter_append]
    rcases hk with hk | hk <;> simp [List.filter, hk]
  · right
    rw [if_neg hm]

/-- One turn of the display loop, given the account of the turns that
follow. -/
theorem counts_from_emit_step (env : Env) (c : Char) (cs : List Char) (rd : fs_readdir_t)
    (s : Fsel) (l : List Entry) (hl : s.fsel_list = some l) (hc : s.fsel_file_cnt < 65536)
    (hrest : ∀ (s1 : Fsel) (l1 : List Entry), s1.fsel_list = some l1 →
      s1.fsel_file_cnt < 65536 →
      counts_from env s1 (emit_loop env (fs_readdir rd).1 (fs_readdir rd).2 s1).1) :
    counts_from env s (emit_loop env (some (c :: cs)) rd s).1 := by
  rw [emit_loop_cons]
  rcases add_elem_cases env c cs s l hl with ⟨hsh, hcnt, l1, hl1⟩ | hsame
  · -- the name was added and counted
    have hu : (add_elem env c cs s).fsel_file_cnt < 65536 := by
      rw [hcnt]; exact Nat.mod_lt _ (by decide)
    split
    · rename_i hpf
      refine ⟨1, ?_, ?_, ?_⟩
      · rw [shown_lv_list_add_other _ _ _ _ (by decide) (by decide), shown_call, hsh]
      · show (add_elem env c cs s).fsel_file_cnt = _
        rw [hcnt]; rfl
      · intro hP _
        have := Nat.mod_lt s.fsel_file_cnt hP
        omega
    · rename_i hpf
      obtain ⟨k, hk1, hk2, hk3⟩ := hrest ((add_elem env c cs s).call
        (.fs_readdir (fs_readdir rd).1)) l1 hl1 hu
      refine ⟨k + 1, ?_, ?_, ?_⟩
      · rw [hk1, shown_call, hsh]; omega
      · rw [hk2]
        show ((add_elem env c cs s).fsel_file_cnt + k) % 65536 = _
        rw [hcnt, u16, Nat.mod_add_mod]
        congr 1; omega
      · intro hP hw
        have hmod := Nat.mod_lt s.fsel_file_cnt hP
        have hc1 : ((add_elem env c cs s).call (.fs_readdir (fs_readdir rd).1)).fsel_file_cnt
            = s.fsel_file_cnt + 1 := by
          show (add_elem env c cs s).fsel_file_cnt = _
          rw [hcnt, u16]; exact Nat.mod_eq_of_lt (by omega)
        have hnf : (s.fsel_file_cnt + 1) % env.cfg.LV_APP_FSEL_PAGE_SIZE ≠ 0 := by
          intro h0
          apply hpf
          simp [page_full, hc1, h0]
        have hmod1 : (s.fsel_file_cnt + 1) % env.cfg.LV_APP_FSEL_PAGE_SIZE
            = s.fsel_file_cnt % env.cfg.LV_APP_FSEL_PAGE_SIZE + 1 := by
          have hlt : s.fsel_file_cnt % env.cfg.LV_APP_FSEL_PAGE_SIZE + 1
              < env.cfg.LV_APP_FSEL_PAGE_SIZE := by
            by_contra hge
            have h1 := Nat.mod_add_div s.fsel_file_cnt env.cfg.LV_APP_FSEL_PAGE_SIZE
            have : (s.fsel_file_cnt + 1) % env.cfg.LV_APP_FSEL_PAGE_SIZE = 0 := by
              have e : s.fsel_file_cnt + 1 = env.cfg.LV_APP_FSEL_PAGE_SIZE
                  * (s.fsel_file_cnt / env.cfg.LV_APP_FSEL_PAGE_SIZE + 1) := by
                rw [Nat.mul_add]; omega
              rw [e]; exact Nat.mul_mod_right _ _
            exact hnf this
          rw [Nat.add_mod, Nat.mod_eq_of_lt (a := 1) (by omega)]
          exact Nat.mod_eq_of_lt hlt
        have hk3' := hk3 hP
        rw [hc1, hmod1] at hk3'
        have := hk3' (by omega)
        omega
  · -- the name was filtered out
    rw [hsame]
    split
    · refine ⟨0, ?_, ?_, fun _ _ => Nat.zero_le _⟩
      · rw [shown_lv_list_add_other _ _ _ _ (by decide) (by decide), shown_call]; rfl
      · show s.fsel_file_cnt = _
        simp [Nat.mod_eq_of_lt hc]
    · exact hrest (s.call (.fs_readdir (fs_readdir rd).1)) l hl hc

/-- The account of the display loop on every directory: the files and folders
it adds are counted one by one, and they do not pass the next multiple of the
page size. -/
theorem counts_from_emit_loop (env : Env) : ∀ (rd : fs_readdir_t) (cur : ReadRes) (s : Fsel)
    (l : List Entry), s.fsel_list = some l → s.fsel_file_cnt < 65536 →
    counts_from env s (emit_loop env cur rd s).1 := by
  intro rd
  induction rd with
  | nil =>
    intro cur s l hl hc
    rcases cur with _ | _ | ⟨c, cs⟩
    · simpa [emit_loop] using counts_from_refl env s hc
    · simpa [emit_loop] using counts_from_refl env s hc
    · exact counts_from_emit_step env c cs [] s l hl hc (fun s1 l1 _ hc1 => by
        simpa [fs_readdir, emit_loop] using counts_from_refl env s1 hc1)
  | cons r rd ih =>
    intro cur s l hl hc
    rcases cur with _ | _ | ⟨c, cs⟩
    · simpa [emit_loop] using counts_from_refl env s hc
    · simpa [emit_loop] using counts_from_refl env s hc
    · exact counts_from_emit_step env c cs (r :: rd) s l hl hc (fun s1 l1 hl1 hc1 => by
        simpa [fs_readdir] using ih r s1 l1 hl1 hc1)


theorem counts_from_congr (env : Env) {a b a1 b1 : Fsel} (h : counts_from env a b)
    (ha : shown a1 = shown a) (hac : a1.fsel_file_cnt = a.fsel_file_cnt)
    (hb : shown b1 = shown b) (hbc : b1.fsel_file_cnt = b.fsel_file_cnt) :
    counts_from env a1 b1 := by
  unfold counts_from at *
  rw [ha, hac, hb, hbc]
  exact h

theorem counts_from_fsel_refr_dir (env : Env) (fuel : Nat) (s t : Fsel) (rd : fs_readdir_t)
    (l : List Entry) (hl : s.fsel_list = some l) (hc : s.fsel_file_cnt < 65536)
    (h : fsel_refr_dir env fuel s rd = .ok t) : counts_from env s t := by
  unfold fsel_refr_dir at h
  dsimp only at h
  have h6 : ∃ l6, (if s.fsel_file_cnt ≠ 0 then
      s.lv_list_add .PreviousPage "Previous page".toList false else s).fsel_list = some l6 := by
    split
    · exact ⟨l ++ [⟨.PreviousPage, "Previous page".toList, false⟩], by
        simp [Fsel.lv_list_add, hl]⟩
    · exact ⟨l, hl⟩
  have h6s : shown (if s.fsel_file_cnt ≠ 0 then
      s.lv_list_add .PreviousPage "Previous page".toList false else s) = shown s := by
    split
    · exact shown_lv_list_add_other _ _ _ _ (by decide) (by decide)
    · rfl
  have h6c : (if s.fsel_file_cnt ≠ 0 then
      s.lv_list_add .PreviousPage "Previous page".toList false else s).fsel_file_cnt
      = s.fsel_file_cnt := by
    split <;> rfl
  generalize (if s.fsel_file_cnt ≠ 0 then
      s.lv_list_add .PreviousPage "Previous page".toList false else s) = s6 at h h6 h6s h6c
  obtain ⟨l6, hl6⟩ := h6
  split at h
  · simp at h
  · rename_i s7 hsk
    injection h with h
    subst h
    obtain ⟨evs, he⟩ := skip_loop_calls _ _ _ _ _ _ hsk
    simp only [Skip.state] at he
    exact counts_from_congr env (counts_from_refl env s hc) rfl rfl
      (by rw [he, shown_calls, h6s]) (by rw [he]; exact h6c)
  · rename_i s7 rd1 fn hsk
    injection h with h
    subst h
    obtain ⟨evs, he⟩ := skip_loop_calls _ _ _ _ _ _ hsk
    simp only [Skip.state] at he
    have h7l : s7.fsel_list = some l6 := by rw [he]; exact hl6
    have h7c : s7.fsel_file_cnt = s.fsel_file_cnt := by rw [he]; exact h6c
    have h7s : shown s7 = shown s := by rw [he, shown_calls, h6s]
    have key := counts_from_emit_loop env rd1 (some fn) s7 l6 h7l (by rw [h7c]; exact hc)
    split
    · exact counts_from_congr env key h7s.symm h7c.symm rfl rfl
    · exact counts_from_congr env key h7s.symm h7c.symm rfl rfl

/-- The account of a refresh: the count grows by the number of files and
folders on the new list, modulo `2 ^ 16`, and that number does not pass the
next multiple of the page size. -/
theorem fsel_refr_counts (env : Env) (fuel : Nat) (s t : Fsel)
    (hc : s.fsel_file_cnt < 65536) (h : fsel_refr env fuel s = .ok t) :
    t.fsel_file_cnt = (s.fsel_file_cnt + (shown t).length) % 65536 ∧
    (1 ≤ env.cfg.LV_APP_FSEL_PAGE_SIZE →
      s.fsel_file_cnt + (env.cfg.LV_APP_FSEL_PAGE_SIZE
        - s.fsel_file_cnt % env.cfg.LV_APP_FSEL_PAGE_SIZE) < 65536 →
      (shown t).length ≤ env.cfg.LV_APP_FSEL_PAGE_SIZE
        - s.fsel_file_cnt % env.cfg.LV_APP_FSEL_PAGE_SIZE) := by
  obtain ⟨evs0, h0⟩ := fsel_refr_new_list_eq s
  have hn : shown (fsel_refr_new_list s) = [] := by rw [h0]; rfl
  have hnc : (fsel_refr_new_list s).fsel_file_cnt = s.fsel_file_cnt := by rw [h0]; rfl
  have hnl : (fsel_refr_new_list s).fsel_list = some [] := by rw [h0]
  suffices hk : ∃ k, (shown t).length = k ∧ t.fsel_file_cnt = (s.fsel_file_cnt + k) % 65536 ∧
      (1 ≤ env.cfg.LV_APP_FSEL_PAGE_SIZE →
        s.fsel_file_cnt + (env.cfg.LV_APP_FSEL_PAGE_SIZE
          - s.fsel_file_cnt % env.cfg.LV_APP_FSEL_PAGE_SIZE) < 65536 →
        k ≤ env.cfg.LV_APP_FSEL_PAGE_SIZE
          - s.fsel_file_cnt % env.cfg.LV_APP_FSEL_PAGE_SIZE) by
    obtain ⟨k, hk1, hk2, hk3⟩ := hk
    rw [hk1]
    exact ⟨hk2, hk3⟩
  unfold fsel_refr at h
  dsimp only at h
  split at h
  · injection h with h
    subst h
    rw [drv_loop_eq _ _ _ [] (by simpa [Fsel.call] using hnl)]
    refine ⟨0, ?_, ?_, fun _ _ => Nat.zero_le _⟩
    · simp [shown, List.filter_map, List.filter_eq_nil_iff]
    · show (fsel_refr_new_list s).fsel_file_cnt = _
      rw [hnc]; simp [Nat.mod_eq_of_lt hc]
  · have h4s : shown ((fsel_refr_new_list s).lv_list_add .Up "Up".toList false) = [] := by
      rw [shown_lv_list_add_other _ _ _ _ (by decide) (by decide), hn]
    split at h
    · injection h with h
      subst h
      refine ⟨0, ?_, ?_, fun _ _ => Nat.zero_le _⟩
      · rw [shown_call, shown_call, h4s]; rfl
      · show (fsel_refr_new_list s).fsel_file_cnt = _
        rw [hnc]; simp [Nat.mod_eq_of_lt hc]
    · obtain ⟨k, hk1, hk2, hk3⟩ := counts_from_fsel_refr_dir env fuel _ t _ _
        (by simp [Fsel.call, Fsel.lv_list_add, hnl] : _ = some [⟨.Up, "Up".toList, false⟩])
        (by show (fsel_refr_new_list s).fsel_file_cnt < 65536; rw [hnc]; exact hc) h
      rw [shown_call, h4s] at hk1
      have hcc : (((fsel_refr_new_list s).lv_list_add .Up "Up".toList false).call
          (.fs_readdir_init ((fsel_refr_new_list s).lv_list_add .Up "Up".toList false).fsel_path
            true)).fsel_file_cnt = s.fsel_file_cnt := hnc
      rw [hcc] at hk2 hk3
      exact ⟨k, by simpa using hk1, hk2, hk3⟩


/-- C17: offset accounting.  A refresh that starts at a count `o` below
`2 ^ 16` and returns leaves the count `(o + e) mod 2 ^ 16`, `e` being the
number of files and folders on the new list (on every file system: also when
the refresh gives up, where `e = 0`); it returns whenever `o < 65535` and the
fuel exceeds `o` by two; and adding an element to the list (Up, Previous
page, Next page) does not touch the count. -/
theorem offset_accounting (env : Env) (fuel : Nat) (s : Fsel)
    (ho : s.fsel_file_cnt < 65536) :
    (∀ t, fsel_refr env fuel s = .ok t →
      t.fsel_file_cnt = (s.fsel_file_cnt + (shown t).length) % 65536) ∧
    (s.fsel_file_cnt < 65535 → s.fsel_file_cnt + 2 ≤ fuel →
      ∃ t, fsel_refr env fuel s = .ok t) ∧
    (∀ (u : Fsel) (k : Kind) (txt : List Char) (b : Bool),
      (u.lv_list_add k txt b).fsel_file_cnt = u.fsel_file_cnt) :=
  ⟨fun t h => (fsel_refr_counts env fuel s t ho h).1,
   fun h1 h2 => fsel_refr_returns env fuel s h1 h2,
   fun _ _ _ _ => rfl⟩

/-- Witness of C17: 25 files, page size 10; the refresh at the count 20 shows
5 files and leaves the count 25. -/
theorem offset_accounting_witness :
    ∃ t, fsel_refr demo_env 30 (at_sd [] 20) = .ok t ∧ (shown t).length = 5 ∧
      t.fsel_file_cnt = 25 :=
  ⟨_, rfl, rfl,
    ((offset_accounting demo_env 30 (at_sd [] 20) (by decide)).1 _ rfl).trans (by rfl)⟩

/-- C18: the page size bounds a page.  For a page size `P ≥ 1` and a start
count `o` with `o + P < 2 ^ 16`, a refresh that returns has put at most
`P - o mod P` files and folders on the list, hence at most `P`; and it
returns whenever the fuel exceeds `o` by two. -/
theorem page_size_bound (env : Env) (fuel : Nat) (s : Fsel)
    (hP : 1 ≤ env.cfg.LV_APP_FSEL_PAGE_SIZE)
    (ho : s.fsel_file_cnt + env.cfg.LV_APP_FSEL_PAGE_SIZE < 65536) :
    (∀ t, fsel_refr env fuel s = .ok t →
      (shown t).length ≤ env.cfg.LV_APP_FSEL_PAGE_SIZE
        - s.fsel_file_cnt % env.cfg.LV_APP_FSEL_PAGE_SIZE ∧
      (shown t).length ≤ env.cfg.LV_APP_FSEL_PAGE_SIZE) ∧
    (s.fsel_file_cnt + 2 ≤ fuel → ∃ t, fsel_refr env fuel s = .ok t) := by
  refine ⟨fun t h => ?_, fun h2 => fsel_refr_returns env fuel s (by omega) h2⟩
  have hb := (fsel_refr_counts env fuel s t (by omega) h).2 hP (by omega)
  exact ⟨hb, le_trans hb (Nat.sub_le _ _)⟩

/-- Witness of C18: 25 files, page size 10; the refresh at the count 3 shows
the 7 files up to the count 10. -/
theorem page_size_bound_witness :
    ∃ t, fsel_refr demo_env 30 (at_sd [] 3) = .ok t ∧ (shown t).length = 7 ∧
      (shown t).length ≤ 10 - 3 % 10 ∧ (shown t).length ≤ 10 :=
  ⟨_, rfl, rfl, (page_size_bound demo_env 30 (at_sd [] 3) (by decide) (by decide)).1 _ rfl⟩

/-! ### C19: the indices of the trimming loop -/

theorem trim_reads_concat (fuel : Nat) (q : List Char) (c : Char) :
    trim_reads (fuel + 1) (q ++ [c]) q.length =
      if is_sep c = true then q.length :: trim_reads fuel q (u16 (q.length + 65535))
      else [q.length] := by
  conv_lhs => unfold trim_reads
  have hlt : q.length < (q ++ [c]).length := by simp
  rw [dif_pos hlt]
  have hget : (q ++ [c])[q.length] = c := by simp
  rw [hget]
  have htake : (q ++ [c]).take q.length = q := by simp
  rw [htake]
  by_cases hs : is_sep c = true
  · rw [if_pos hs, if_pos (by simpa [is_sep] using hs)]
  · rw [if_neg hs, if_neg (by simpa [is_sep] using hs)]

/-- On a string of at most `2 ^ 16` characters that has a character other
than a separator, the trimming loop reads inside the string only. -/
theorem trim_reads_inside (n : Nat) : ∀ (path : List Char) (fuel : Nat),
    path.length = n → n ≤ 65536 → rtrim path ≠ [] →
    ∀ i ∈ trim_reads fuel path (u16 (path.length + 65535)), i < path.length := by
  induction n with
  | zero =>
    intro path fuel hn _ hne
    have : path = [] := List.length_eq_zero.1 hn
    subst this
    simp [rtrim] at hne
  | succ n ih =>
    intro path fuel hn hle hne i hi
    obtain ⟨q, c, rfl⟩ : ∃ q c, path = q ++ [c] := by
      rcases List.eq_nil_or_concat path with h | ⟨q, c, h⟩
      · subst h; simp at hn
      · exact ⟨q, c, by rw [h, List.concat_eq_append]⟩
    have hq : q.length = n := by simpa using hn
    have hidx : u16 ((q ++ [c]).length + 65535) = q.length := by
      simp only [List.length_append, List.length_singleton, u16]; omega
    rw [hidx] at hi
    cases fuel with
    | zero => simp [trim_reads] at hi
    | succ fuel =>
      rw [trim_reads_concat] at hi
      simp only [List.length_append, List.length_singleton]
      by_cases hs : is_sep c = true
      · rw [if_pos hs] at hi
        rw [rtrim_concat, if_pos hs] at hne
        rcases List.mem_cons.1 hi with rfl | hi
        · omega
        · have := ih q fuel hq (by omega) hne i hi
          omega
      · rw [if_neg hs] at hi
        simp at hi
        omega

/-- C19, evaluated: in a buffer of 128 bytes, the trimming loop on the empty
path reads the index 65535, and on the path `/` the indices 0 and 65535;
65535 is not below the capacity, and `open` leaves the defined behaviour
there. -/
theorem trim_index_leaves_path_buffer :
    ([] : List Char).length < demo_env.cfg.LV_APP_FSEL_PATH_MAX_LEN ∧
    trim_reads 30 [] (u16 (([] : List Char).length + 65535)) = [65535] ∧
    trim_reads 30 ['/'] (u16 (['/'].length + 65535)) = [0, 65535] ∧
    ¬ 65535 < demo_env.cfg.LV_APP_FSEL_PATH_MAX_LEN ∧
    trim_loop demo_env.cfg 30 [] (u16 (([] : List Char).length + 65535))
      = .error (.out_of_bounds 65535) ∧
    trim_loop demo_env.cfg 30 ['/'] (u16 (['/'].length + 65535))
      = .error (.out_of_bounds 65535) :=
  ⟨by decide, rfl, rfl, by decide, rfl, rfl⟩

/-! ### C20: where the refresh starts -/

theorem prev_cnt_lt (cfg : Config) (o : Nat) : prev_cnt cfg o < 65536 := by
  unfold prev_cnt u16
  split
  · decide
  · split <;> exact Nat.mod_lt _ (by decide)

theorem cnt_close (s : Fsel) : (lv_app_fsel_close s).fsel_file_cnt = s.fsel_file_cnt := by
  unfold lv_app_fsel_close
  split <;> rfl

theorem cnt_call_ok_action (s : Fsel) : (call_ok_action s).fsel_file_cnt = s.fsel_file_cnt := by
  unfold call_ok_action
  split <;> rfl

theorem fsel_refr_cnt_lt (env : Env) (fuel : Nat) (s t : Fsel) (hc : s.fsel_file_cnt < 65536)
    (h : fsel_refr env fuel s = .ok t) : t.fsel_file_cnt < 65536 := by
  rw [(fsel_refr_counts env fuel s t hc h).1]
  exact Nat.mod_lt _ (by decide)

/-- In every state reached from `open` by offered inputs the count is below
`2 ^ 16`, and a displayed next page element goes with a count that is a
non-zero multiple of the page size. -/
theorem reachable_count (env : Env) (fuel : Nat) (s : Fsel) (h : Reachable env fuel s) :
    s.fsel_file_cnt < 65536 ∧ (shows_kind s .NextPage = true → page_full env s = true) := by
  induction h with
  | opened path filter param ok_action s0 s hopen =>
    obtain ⟨p, s3, _, _, h3, _, _, e3, e4, _⟩ := lv_app_fsel_open_ok hopen
    refine ⟨by rw [e3]; exact fsel_refr_cnt_lt env fuel _ s3 (by simp) h3, fun hn => ?_⟩
    have hn3 : shows_kind s3 .NextPage = true := by
      unfold shows_kind at hn ⊢; rw [← e4]; exact hn
    have := fsel_refr_next_page env fuel _ s3 h3 hn3
    unfold page_full at this ⊢
    rw [e3]; exact this
  | input s a s1 _ _ hstep ih =>
    obtain ⟨hc, _⟩ := ih
    have hclosed : ∀ u : Fsel, u.fsel_file_cnt = s.fsel_file_cnt →
        (lv_app_fsel_close u).fsel_file_cnt < 65536 ∧
        (shows_kind (lv_app_fsel_close u) .NextPage = true →
          page_full env (lv_app_fsel_close u) = true) := by
      intro u hu
      refine ⟨by rw [cnt_close, hu]; exact hc, fun hn => ?_⟩
      rw [shows_kind_close] at hn
      simp at hn
    have hrefr : ∀ u : Fsel, u.fsel_file_cnt < 65536 → fsel_refr env fuel u = .ok s1 →
        s1.fsel_file_cnt < 65536 ∧
        (shows_kind s1 .NextPage = true → page_full env s1 = true) :=
      fun u hu hr => ⟨fsel_refr_cnt_lt env fuel u s1 hu hr,
        fun hn => fsel_refr_next_page env fuel u s1 hr hn⟩
    cases a with
    | close =>
      simp only [step, fsel_close_action] at hstep
      injection hstep with hstep
      subst hstep
      exact hclosed s rfl
    | up => exact hrefr _ (by simp) hstep
    | next => exact hrefr _ hc hstep
    | prev => exact hrefr _ (prev_cnt_lt _ _) hstep
    | drv txt =>
      simp only [step, fsel_drv_action] at hstep
      split at hstep
      · simp at hstep
      · exact hrefr _ (by simp) hstep
    | folder txt =>
      simp only [step, fsel_folder_action] at hstep
      split at hstep
      · simp at hstep
      · exact hrefr _ (by simp) hstep
    | drv_lpr txt =>
      simp only [step, fsel_drv_lpr_action, sprintf_fsel_path] at hstep
      split at hstep
      · simp at hstep
      · rename_i s2 hs2
        split at hs2
        · simp at hs2
        · injection hs2 with hs2
          subst hs2
          injection hstep with hstep
          subst hstep
          exact hclosed _ (by rw [cnt_call_ok_action])
    | folder_lpr txt =>
      simp only [step, fsel_folder_lpr_action] at hstep
      split at hstep
      · simp at hstep
      · rename_i s2 hs2
        obtain ⟨str, _, rfl, _⟩ := sprintf_fsel_path_self_ok hs2
        injection hstep with hstep
        subst hstep
        exact hclosed _ (by rw [cnt_call_ok_action])
    | file txt =>
      simp only [step, fsel_file_action] at hstep
      split at hstep
      · simp at hstep
      · rename_i s2 hs2
        obtain ⟨str, _, rfl, _⟩ := sprintf_fsel_path_self_ok hs2
        injection hstep with hstep
        subst hstep
        exact hclosed _ (by rw [cnt_call_ok_action])

/-- An input that refreshes runs `fsel_refr` on its `refr_start`. -/
theorem step_refr_start (env : Env) (fuel : Nat) (s s1 : Fsel) (a : Action)
    (h : refr_start env s a = some s1) : step env fuel s a = fsel_refr env fuel s1 := by
  cases a with
  | up => simp only [refr_start] at h; injection h with h; subst h; rfl
  | next => simp only [refr_start] at h; injection h with h; subst h; rfl
  | prev => simp only [refr_start] at h; injection h with h; subst h; rfl
  | drv txt =>
    simp only [refr_start] at h
    simp only [step, fsel_drv_action]
    split at h
    · simp at h
    · rename_i s2 hs2
      injection h with h
      subst h
      rfl
  | folder txt =>
    simp only [refr_start] at h
    simp only [step, fsel_folder_action]
    split at h
    · simp at h
    · rename_i s2 hs2
      injection h with h
      subst h
      rfl
  | close => simp [refr_start] at h
  | drv_lpr txt => simp [refr_start] at h
  | folder_lpr txt => simp [refr_start] at h
  | file txt => simp [refr_start] at h

/-- C20: the refresh starts on a page boundary.  In a state reached from
`open` by offered inputs, every offered input that refreshes (Up, Previous,
Next, drive and folder descent) runs `fsel_refr` on a state whose count is a
multiple of the page size and below `2 ^ 16`; and the refresh run by `open`
itself starts at the count 0. -/
theorem refresh_starts_on_page_boundary (env : Env) (fuel : Nat) (s s1 : Fsel) (a : Action)
    (h : Reachable env fuel s) (hoff : offered s a = true)
    (hstart : refr_start env s a = some s1) :
    step env fuel s a = fsel_refr env fuel s1 ∧
    s1.fsel_file_cnt % env.cfg.LV_APP_FSEL_PAGE_SIZE = 0 ∧ s1.fsel_file_cnt < 65536 ∧
    (∀ path filter param ok_action s0 t,
      lv_app_fsel_open env fuel path filter param ok_action s0 = .ok t →
      ∃ u t1, u.fsel_file_cnt = 0 ∧ fsel_refr env fuel u = .ok t1 ∧
        t.fsel_list = t1.fsel_list ∧ t.fsel_file_cnt = t1.fsel_file_cnt) := by
  obtain ⟨hc, hnext⟩ := reachable_count env fuel s h
  refine ⟨step_refr_start env fuel s s1 a hstart, ?_, ?_, ?_⟩
  · cases a with
    | up => simp only [refr_start] at hstart; injection hstart with e; subst e; rfl
    | next =>
      simp only [refr_start] at hstart
      injection hstart with e
      subst e
      exact page_full_mod env _ (hnext hoff)
    | prev =>
      simp only [refr_start] at hstart
      injection hstart with e
      subst e
      exact prev_cnt_mod env.cfg _ hc
    | drv txt =>
      simp only [refr_start] at hstart
      split at hstart
      · simp at hstart
      · injection hstart with e; subst e; rfl
    | folder txt =>
      simp only [refr_start] at hstart
      split at hstart
      · simp at hstart
      · injection hstart with e; subst e; rfl
    | close => simp [refr_start] at hstart
    | drv_lpr txt => simp [refr_start] at hstart
    | folder_lpr txt => simp [refr_start] at hstart
    | file txt => simp [refr_start] at hstart
  · cases a with
    | up => simp only [refr_start] at hstart; injection hstart with e; subst e; simp
    | next => simp only [refr_start] at hstart; injection hstart with e; subst e; exact hc
    | prev =>
      simp only [refr_start] at hstart
      injection hstart with e
      subst e
      exact prev_cnt_lt _ _
    | drv txt =>
      simp only [refr_start] at hstart
      split at hstart
      · simp at hstart
      · injection hstart with e; subst e; simp
    | folder txt =>
      simp only [refr_start] at hstart
      split at hstart
      · simp at hstart
      · injection hstart with e; subst e; simp
    | close => simp [refr_start] at hstart
    | drv_lpr txt => simp [refr_start] at hstart
    | folder_lpr txt => simp [refr_start] at hstart
    | file txt => simp [refr_start] at hstart
  · intro path filter param ok_action s0 t hopen
    obtain ⟨p, s3, _, _, h3, _, _, e3, e4, _⟩ := lv_app_fsel_open_ok hopen
    exact ⟨_, s3, rfl, h3, e4, e3⟩

/-- Witness of C20: after opening the 25 files at page size 10 the count is
10 and Next is offered; the refresh of Next starts at that count.  After
opening four files the count is 4, and the refresh of the offered Up starts
at 0. -/
theorem refresh_starts_on_page_boundary_witness :
    Reachable demo_env 30 demo_open ∧ offered demo_open .next = true ∧
    demo_open.fsel_file_cnt % 10 = 0 ∧
    (∃ s, lv_app_fsel_open (listing_env 10 four_names) 10 "/sd".toList none 0 none Fsel.init
        = .ok s ∧ s.fsel_file_cnt = 4 ∧ offered s .up = true ∧
      ∃ s1, refr_start (listing_env 10 four_names) s .up = some s1 ∧ s1.fsel_file_cnt = 0) :=
  ⟨Reachable.opened "/sd".toList none 0 none Fsel.init demo_open rfl, rfl,
    (refresh_starts_on_page_boundary demo_env 30 demo_open demo_open .next
      (Reachable.opened "/sd".toList none 0 none Fsel.init demo_open rfl) rfl rfl).2.1,
    ⟨_, rfl, rfl, rfl, _, rfl, rfl⟩⟩

/-! ### C6: the count and the displayed page -/

end LvAppFsel
